import Mathlib

/-!
Verification development for the packaging helper `pack.py` of
DTC.Installer.  The configuration-reconciliation subsystem is shallowly
embedded: JSON documents become an inductive `JVal` (objects are ordered
association lists, matching Python's insertion-ordered `dict`), the
filesystem and git probes become an explicit `Env` record of query
functions, and every reconciliation step (`ensure_bundle_identifier`,
`ensure_mac_section`, `ensure_version`, `ensure_publisher_url`,
`remember_bundle_prefix`, `ensure_cfg`) is translated line by line from
the source.  Fallible steps return `Except String`; the persisted-I/O
actions of a pass are recorded as an explicit event trace.
-/

/-- JSON-equivalent values.  Objects keep field order, as Python dicts do. -/
inductive JVal where
  | null
  | bool (b : Bool)
  | num (n : Int)
  | str (s : String)
  | arr (elems : List JVal)
  | obj (fields : List (String × JVal))

/-- A JSON object: insertion-ordered association list of fields. -/
abbrev JObj := List (String × JVal)

/-- Python `d.get(k)`: value at the first matching key, if present. -/
def jget : JObj → String → Option JVal
  | [], _ => none
  | (k, v) :: rest, key => if k = key then some v else jget rest key

/-- Python `d.get(k, default)`. -/
def jgetD (m : JObj) (k : String) (d : JVal) : JVal :=
  (jget m k).getD d

/-- Python `d[k] = v`: update in place keeping the key's position, or append. -/
def jset : JObj → String → JVal → JObj
  | [], key, v => [(key, v)]
  | (k, w) :: rest, key, v =>
      if k = key then (k, v) :: rest else (k, w) :: jset rest key v

/-- Python `k in d`. -/
def jmem (m : JObj) (k : String) : Bool :=
  (jget m k).isSome

/-- Python truthiness of a JSON value. -/
def truthy : JVal → Bool
  | .null => false
  | .bool b => b
  | .num n => n != 0
  | .str s => s ≠ ""
  | .arr xs => !xs.isEmpty
  | .obj fs => !fs.isEmpty

/-- Truthiness of `d.get(k)` (missing keys read as `None`). -/
def truthyAt (m : JObj) (k : String) : Bool :=
  truthy (jgetD m k .null)

/-- The value of a field when it is a truthy string.  The source reads
these fields (`Project`, `ProductName`, `CompanyName`) as `str | None`;
a truthy non-string value would raise a `TypeError` in Python, so flows
with such values abort there and are outside the modelled behaviours. -/
def getStrTruthy (m : JObj) (k : String) : Option String :=
  match jget m k with
  | some (.str s) => if s = "" then none else some s
  | _ => none

/-- Python `str()` of a value.  Exact for `None`, booleans, integers and
strings — the only shapes the modelled code paths stringify; the
container renderings are placeholders and are never exercised. -/
def pyStr : JVal → String
  | .null => "None"
  | .bool true => "True"
  | .bool false => "False"
  | .num n => toString n
  | .str s => s
  | .arr _ => "[...]"
  | .obj _ => "{...}"

/-- The characters Python `str.strip()` removes. -/
def isPySpace (c : Char) : Bool :=
  c = ' ' || c = '\t' || c = '\n' || c = '\r' || c = '\x0b' || c = '\x0c'

/-- Python `s.strip()`. -/
def pyStrip (s : String) : String :=
  String.mk (((s.data.dropWhile isPySpace).reverse.dropWhile isPySpace).reverse)

/-- `xs.split(sep)` on character lists (Python `str.split` with an
explicit separator: `"" ↦ [""]`, separators at the ends give empty parts). -/
def splitChar (sep : Char) : List Char → List (List Char)
  | [] => [[]]
  | x :: xs =>
      match splitChar sep xs with
      | h :: t => if x = sep then [] :: h :: t else (x :: h) :: t
      | [] => [[x]]

/-- Python `sep.join(parts)`. -/
def joinSep (sep : String) : List String → String
  | [] => ""
  | [x] => x
  | x :: y :: rest => x ++ sep ++ joinSep sep (y :: rest)

/-- `s.split(sep)` for a one-character separator, as strings. -/
def splitStr (sep : Char) (s : String) : List String :=
  (splitChar sep s.data).map String.mk

/-- Python `s.startswith(p)`. -/
def strStartsWith (s p : String) : Bool :=
  p.data.isPrefixOf s.data

/-- Drop a known leading literal from a string. -/
def dropPrefixStr (s p : String) : String :=
  String.mk (s.data.drop p.data.length)

/-!  Pure helpers translated from `pack.py`. -/

/-- Python `s.lower()`, character by character (exact on ASCII, the only
range the modelled identifiers use). -/
def strToLower (s : String) : String :=
  String.mk (s.data.map Char.toLower)

/-- `sanitize_identifier` (pack.py 142-145): lower-case, keep only
alphanumerics, fall back when the result is empty. -/
def sanitize_identifier (text : Option String) (fallback : String) : String :=
  let raw := strToLower (text.getD "")
  let cleaned := String.mk (raw.data.filter Char.isAlphanum)
  if cleaned = "" then fallback else cleaned

/-- `^\d+\.\d+` full match, the version shape of `validate_version`. -/
def isVerFormat (s : String) : Bool :=
  match splitChar '.' s.data with
  | [a, b] => !a.isEmpty && !b.isEmpty && a.all Char.isDigit && b.all Char.isDigit
  | _ => false

/-- `validate_version` (pack.py 133-139).  Callers always pass `str(...)`,
so the `isinstance` guard reduces to the emptiness test on the strip. -/
def validate_version (value : String) : Except String String :=
  if pyStrip value = "" then .error "Version must be a non-empty string."
  else
    let v := pyStrip value
    if isVerFormat v then .ok v
    else .error "Version must use major.minor format (e.g. 1.2)."

/-- `normalize_bundle_prefix` (pack.py 204-212): falsy input gives `None`;
otherwise stringify, strip, drop if empty, ensure a trailing dot. -/
def normalize_bundle_prefix (v : JVal) : Option String :=
  if !truthy v then none
  else
    let p := pyStrip (pyStr v)
    if p = "" then none
    else if p.data.getLast? = some '.' then some p
    else some (p ++ ".")

/-- `extract_bundle_prefix` (pack.py 215-221): split the stripped bundle id
on dots, drop empty parts, require at least 3, rejoin all but the last. -/
def extract_bundle_prefix (v : JVal) : Option String :=
  if !truthy v then none
  else
    let parts := (splitStr '.' (pyStrip (pyStr v))).filter (fun p => p ≠ "")
    if parts.length < 3 then none
    else normalize_bundle_prefix (.str (joinSep "." parts.dropLast))

/-- `auto_bundle_prefix` (pack.py 224-226). -/
def auto_bundle_prefix (cfg : JObj) : String :=
  let company_slug := sanitize_identifier (getStrTruthy cfg "CompanyName") "example"
  ( normalize_bundle_prefix (.str ("com." ++ company_slug))).getD "com.example."

/-- `get_prefix_map` (pack.py 148-150). -/
def get_prefix_map (prefs : JObj) : JObj :=
  match jget prefs "BundleIdentifierPrefixMap" with
  | some (.obj m) => m
  | _ => []

/-- `preferred_bundle_prefix` (pack.py 229-234): a present map entry wins
(even when it normalizes to nothing); otherwise the legacy single field. -/
def preferred_bundle_prefix (prefs : JObj) (autoP : String) : Option String :=
  let mapping := get_prefix_map prefs
  if jmem mapping autoP then normalize_bundle_prefix (jgetD mapping autoP .null)
  else normalize_bundle_prefix (jgetD prefs "BundleIdentifierPrefix" .null)

/-- Python `==` between `mapping.get(auto_prefix)` (a JSON value or `None`)
and the computed prefix string: true only for an equal string value. -/
def jvalEqStr (v : Option JVal) (s : String) : Bool :=
  match v with
  | some (.str t) => t = s
  | _ => false

/-!  The reconciliation pass and its persisted-I/O trace. -/

/-- One persisted-document access during a reconciliation pass. -/
inductive Ev where
  | readCfg
  | writeCfg
  | loadPrefs
  | savePrefs
deriving DecidableEq, Repr

/-- `remember_bundle_prefix` (pack.py 254-265), as a transformer of the
preference document.  Returns the document as persisted after the call
(unchanged when nothing is saved) and the prefs accesses performed:
no access when the bundle id yields no prefix, a load (and possibly a
save) otherwise. -/
def remember_bundle_prefix (cfg : JObj) (prefs : JObj) : JObj × List Ev :=
  let autoP := auto_bundle_prefix cfg
  match extract_bundle_prefix (jgetD cfg "BundleIdentifier" .null) with
  | none => (prefs, [])
  | some actualP =>
      let mapping := get_prefix_map prefs
      if jvalEqStr (jget mapping autoP) actualP then (prefs, [.loadPrefs])
      else
        (jset prefs "BundleIdentifierPrefixMap" (.obj (jset mapping autoP (.str actualP))),
         [.loadPrefs, .savePrefs])

/-- `Path(p).stem`: final path component (ignoring empty and `.` parts),
without its last extension; a leading or trailing lone dot is kept. -/
def pathStem (p : String) : String :=
  let comps := (splitChar '/' p.data).filter (fun c => c ≠ [] && c ≠ ['.'])
  let nm := comps.getLast?.getD []
  let afterRev := nm.reverse.takeWhile (fun c => c ≠ '.')
  let i := nm.length - afterRev.length - 1
  if afterRev.length < nm.length && 0 < i && !afterRev.isEmpty
  then String.mk (nm.take i) else String.mk nm

/-- `project_path.parent / "Assets" / "app.icns"` relative to the repo
root, given the project file's root-relative posix path. -/
def iconRelFor (projRel : String) : String :=
  let par := joinSep "/" (splitStr '/' projRel).dropLast
  (if par = "" then "" else par ++ "/") ++ "Assets/app.icns"

/-- A located `.csproj`: its stem and its root-relative posix path. -/
structure ProjInfo where
  stem : String
  relPath : String

/-- The repository environment a reconciliation pass queries: the result
of `first_csproj()`, filesystem existence probes, the icon searches of
`mac_defaults`, the `Version` entry `read_csproj_metadata` would return
for a project file, and the `origin` remote URL from the git config. -/
structure Env where
  firstCsproj : Option ProjInfo
  pathExists : String → Bool
  appIcnsExists : String → Bool
  fallbackIcns : String → Option String
  csprojVersion : String → Option String
  remoteUrl : String

/-- `ensure_bundle_identifier` (pack.py 268-292).  `prefs0` is what
`load_preferences()` returns; the returned event list records that load
(performed only on the backfill branch). -/
def ensure_bundle_identifier (env : Env) (prefs0 : JObj) (cfg : JObj)
    (updates : List String) : JObj × List String × List Ev :=
  if truthyAt cfg "BundleIdentifier" then (cfg, updates, [])
  else
    let dp0 :=
      match getStrTruthy cfg "Project" with
      | some pr => pathStem pr
      | none =>
          match env.firstCsproj with
          | some p => p.stem
          | none => ""
    let default_product := if dp0 = "" then "app" else dp0
    let base_product := (getStrTruthy cfg "ProductName").getD default_product
    let autoP := auto_bundle_prefix cfg
    let prefP := preferred_bundle_prefix prefs0 autoP
    let product_slug := sanitize_identifier (some base_product) (strToLower default_product)
    let bid :=
      match prefP with
      | some pp => pp ++ product_slug
      | none => autoP ++ product_slug
    (jset cfg "BundleIdentifier" (.str bid),
     updates ++ ["Added default BundleIdentifier"], [.loadPrefs])

/-- The literal runtime-identifier default `["osx-arm64", "osx-x64"]`. -/
def defaultRids : JVal :=
  .arr [.str "osx-arm64", .str "osx-x64"]

/-- The icon path `mac_defaults` probes for a project: the conventional
`Assets/app.icns` next to the project, else the first `*.icns` found by
`find_first_icon`, else empty; nothing when the project path is missing. -/
def macIconRel (env : Env) (projRel : String) : String :=
  if env.pathExists projRel then
    if env.appIcnsExists projRel then iconRelFor projRel
    else ((env.fallbackIcns projRel).getD "")
  else ""

/-- `mac_defaults` (pack.py 295-329): may set `Project` from
`first_csproj()` when absent; returns the updated config and the default
`Mac` section (the locally computed `exe_name` of the source is unused
there and is omitted). -/
def mac_defaults (env : Env) (cfg : JObj) : JObj × JObj :=
  let (cfg', projRel?) :=
    match getStrTruthy cfg "Project" with
    | some pr => (cfg, some pr)
    | none =>
        match env.firstCsproj with
        | some p => (jset cfg "Project" (.str p.relPath), some p.relPath)
        | none => (cfg, none)
  let icon_rel :=
    match projRel? with
    | some pr => macIconRel env pr
    | none => ""
  (cfg',
   [("RuntimeIdentifiers", defaultRids),
    ("IconIcns", .str icon_rel),
    ("InfoPlist", .str "Installer/templates/Info.plist")])

/-- `ensure_mac_section` (pack.py 332-351).  An explicitly `None`-valued
`Mac` key returns untouched; an absent key gets the full defaults; a
falsy present value is replaced by a dict that gets both sub-defaults; a
truthy mapping has only its missing `RuntimeIdentifiers` / `InfoPlist`
filled.  A truthy non-mapping value raises in Python (`in` / item
assignment on a non-dict), modelled as an error. -/
def ensure_mac_section (env : Env) (cfg : JObj) (updates : List String) :
    Except String (JObj × List String) :=
  match jget cfg "Mac" with
  | some .null => .ok (cfg, updates)
  | none =>
      let (cfg', mac) := mac_defaults env cfg
      .ok (jset cfg' "Mac" (.obj mac),
           updates ++ ["Added default Mac packaging section"])
  | some v =>
      if truthy v then
        match v with
        | .obj m =>
            let fillR := !truthyAt m "RuntimeIdentifiers"
            let m1 := if fillR then jset m "RuntimeIdentifiers" defaultRids else m
            let fillI := !truthyAt m1 "InfoPlist"
            let m2 := if fillI then jset m1 "InfoPlist" (.str "Installer/templates/Info.plist") else m1
            if fillR || fillI then
              .ok (jset cfg "Mac" (.obj m2),
                   updates ++ ["Normalised Mac packaging settings"])
            else .ok (cfg, updates)
        | _ => .error "TypeError: Mac section is not a mapping"
      else
        .ok (jset cfg "Mac"
               (.obj [("RuntimeIdentifiers", defaultRids),
                      ("InfoPlist", .str "Installer/templates/Info.plist")]),
             updates ++ ["Normalised Mac packaging settings"])

/-- `DEFAULT_VERSION` (pack.py 31). -/
def DEFAULT_VERSION : String := "0.1"

/-- `ensure_version` (pack.py 354-374): validate a truthy present value
(fatal on failure); otherwise try the project metadata version, falling
back to the default on absence or validation failure. -/
def ensure_version (env : Env) (cfg : JObj) (updates : List String) :
    Except String (JObj × List String) :=
  let version := jgetD cfg "Version" .null
  if truthy version then
    match validate_version (pyStr version) with
    | .ok w => .ok (jset cfg "Version" (.str w), updates)
    | .error e => .error e
  else
    let metaVer : Option String :=
      match getStrTruthy cfg "Project" with
      | some pr => if env.pathExists pr then env.csprojVersion pr else none
      | none =>
          match env.firstCsproj with
          | some p => if env.pathExists p.relPath then env.csprojVersion p.relPath else none
          | none => none
    match metaVer with
    | some existing =>
        if existing ≠ "" then
          match validate_version existing with
          | .ok w => .ok (jset cfg "Version" (.str w),
                          updates ++ ["Added Version from project metadata"])
          | .error _ => .ok (jset cfg "Version" (.str DEFAULT_VERSION),
                             updates ++ ["Added default Version"])
        else .ok (jset cfg "Version" (.str DEFAULT_VERSION),
                  updates ++ ["Added default Version"])
    | none => .ok (jset cfg "Version" (.str DEFAULT_VERSION),
                   updates ++ ["Added default Version"])

/-- The HTTPS arm of `publisher_url_from_remote`: the regexp
`^https?://([^/]+)/([^/]+)/([^/]+?)(?:\.git)?$` accepts exactly a scheme
followed by three nonempty slash-free segments (the optional `.git` can
always be absorbed by the repo segment), capturing host and owner. -/
def httpsMatch (r : String) : Option (String × String) :=
  let rest? :=
    if strStartsWith r "https://" then some (dropPrefixStr r "https://")
    else if strStartsWith r "http://" then some (dropPrefixStr r "http://")
    else none
  match rest? with
  | none => none
  | some rest =>
      match splitStr '/' rest with
      | [h, o, rp] => if h ≠ "" && o ≠ "" && rp ≠ "" then some (h, o) else none
      | _ => none

/-- The SSH arm of `publisher_url_from_remote`: the regexp
`^git@([^:]+):([^/]+)/([^/]+?)(?:\.git)?$` — host up to the first colon,
then exactly two nonempty slash-free segments. -/
def sshMatch (r : String) : Option (String × String) :=
  if strStartsWith r "git@" then
    let rest := dropPrefixStr r "git@"
    let h := String.mk (rest.data.takeWhile (fun c => c ≠ ':'))
    match rest.data.dropWhile (fun c => c ≠ ':') with
    | ':' :: more =>
        (match (splitChar '/' more).map String.mk with
         | [o, rp] => if h ≠ "" && o ≠ "" && rp ≠ "" then some (h, o) else none
         | _ => none)
    | _ => none
  else none

/-- `publisher_url_from_remote` (pack.py 187-197). -/
def publisher_url_from_remote (remote : String) : String :=
  if remote = "" then ""
  else
    let r := pyStrip remote
    match httpsMatch r with
    | some (host, owner) => "https://" ++ host ++ "/" ++ owner
    | none =>
        match sshMatch r with
        | some (host, owner) => "https://" ++ host ++ "/" ++ owner
        | none => ""

/-- `ensure_publisher_url` (pack.py 377-384), with
`default_publisher_url()` supplied by the environment's remote URL. -/
def ensure_publisher_url (env : Env) (cfg : JObj) (updates : List String) :
    JObj × List String :=
  if truthyAt cfg "PublisherUrl" then (cfg, updates)
  else
    let u := publisher_url_from_remote env.remoteUrl
    if u = "" then (cfg, updates)
    else (jset cfg "PublisherUrl" (.str u),
          updates ++ ["Added default PublisherUrl from git remote"])

/-- The outcome of a reconciliation pass over an existing config file:
the in-memory document it returns, the change log, the preference
document as persisted when the pass ends, and the trace of accesses to
the two persisted documents. -/
structure PassOut where
  cfg : JObj
  updates : List String
  prefs : JObj
  trace : List Ev

/-- The backfill pipeline of `ensure_cfg` (pack.py 454-467) on a parsed
object document: the four field steps, then `remember_bundle_prefix`,
then the config rewrite when any change was logged.  `legacy` records
that the legacy list normalization already rewrote the file once. -/
def run_backfill (env : Env) (prefs0 : JObj) (data : JObj) (legacy : Bool) :
    Except String PassOut :=
  let r1 := ensure_bundle_identifier env prefs0 data []
  match ensure_mac_section env r1.1 r1.2.1 with
  | .error e => .error e
  | .ok r2 =>
    match ensure_version env r2.1 r2.2 with
    | .error e => .error e
    | .ok r3 =>
      let r4 := ensure_publisher_url env r3.1 r3.2
      let r5 := remember_bundle_prefix r4.1 prefs0
      .ok { cfg := r4.1, updates := r4.2, prefs := r5.1,
            trace := [.readCfg] ++ (if legacy then [.writeCfg] else [])
                     ++ r1.2.2 ++ r5.2 ++ (if r4.2.isEmpty then [] else [.writeCfg]) }

/-- `ensure_cfg` (pack.py 441-467) on an existing config file whose
parsed JSON is `data0`: a one-or-more-element list whose head is an
object is unwrapped (and rewritten immediately); an empty list or a list
with a non-object head is the fatal structural error; a non-object,
non-list document would crash Python's attribute access, modelled as an
error. -/
def ensure_cfg_existing (env : Env) (prefs0 : JObj) (data0 : JVal) :
    Except String PassOut :=
  match data0 with
  | .obj d => run_backfill env prefs0 d false
  | .arr [] => .error "Unexpected packaging.json structure."
  | .arr (x :: _) =>
      match x with
      | .obj d => run_backfill env prefs0 d true
      | _ => .error "Unexpected packaging.json structure."
  | _ => .error "TypeError: packaging.json root is not an object"

/-- An environment with no project file, no icons and no git remote. -/
def trivEnv : Env :=
  { firstCsproj := none
    pathExists := fun _ => false
    appIcnsExists := fun _ => false
    fallbackIcns := fun _ => none
    csprojVersion := fun _ => none
    remoteUrl := "" }

/-!  `read_csproj_metadata` (pack.py 107-130). -/

/-- Python `d.setdefault(k, v)`'s effect on the dict. -/
def jsetdefault (m : JObj) (k : String) (v : JVal) : JObj :=
  if jmem m k then m else m ++ [(k, v)]

/-- `node.tag.rsplit("}", 1)[-1]`: the part after the last `}`. -/
def localName (tag : String) : String :=
  ((splitStr '}' tag).getLast?).getD ""

/-- One node of the metadata scan: dispatch on the namespace-stripped tag
after discarding nodes with empty stripped text. -/
def read_csproj_step (meta : JObj) (node : String × String) : JObj :=
  let tag := localName node.1
  let text := pyStrip node.2
  if text = "" then meta
  else if tag = "Company" then jset meta "CompanyName" (.str text)
  else if tag = "ApplicationTitle" || tag = "AssemblyName" then
    jsetdefault meta "ProductName" (.str text)
  else if tag = "RootNamespace" then jsetdefault meta "RootNamespace" (.str text)
  else if tag = "Version" then jset meta "Version" (.str text)
  else meta

/-- `read_csproj_metadata`, abstracted over the document-order list of
`(tag, text)` element nodes and the project file's stem. -/
def read_csproj_metadata (stem : String) (nodes : List (String × String)) : JObj :=
  let meta := nodes.foldl read_csproj_step []
  if jmem meta "ProductName" then meta else jset meta "ProductName" (.str stem)

/-!  `replace_tokens` (pack.py 591-601). -/

/-- Python `s.replace(pat, rep)` on character lists, non-overlapping and
left to right; the fuel is an upper bound on the scan steps. -/
def replaceAllAux (pat rep : List Char) : Nat → List Char → List Char
  | _, [] => []
  | 0, s => s
  | Nat.succ fuel, c :: rest =>
      if pat.isPrefixOf (c :: rest) then
        rep ++ replaceAllAux pat rep fuel ((c :: rest).drop pat.length)
      else c :: replaceAllAux pat rep fuel rest

/-- Python `s.replace(pat, rep)` for nonempty patterns. -/
def pyReplace (s pat rep : String) : String :=
  String.mk (replaceAllAux pat.data rep.data s.data.length s.data)

/-- A `[A-Za-z0-9_]` character. -/
def isWordChar (c : Char) : Bool :=
  c.isAlphanum || c = '_'

/-- Try the pattern `{{\s*([A-Za-z0-9_]+)\s*}}` at the head of the text;
the three character classes are disjoint, so the regexp's greedy match
is plain maximal munch.  Returns the captured name and the rest. -/
def phMatch (cs : List Char) : Option (String × List Char) :=
  match cs with
  | '{' :: '{' :: rest =>
      let rest1 := rest.dropWhile isPySpace
      let name := rest1.takeWhile isWordChar
      if name.isEmpty then none
      else
        match (rest1.dropWhile isWordChar).dropWhile isPySpace with
        | '}' :: '}' :: rest3 => some (String.mk name, rest3)
        | _ => none
  | _ => none

/-- `re.findall` for the placeholder pattern: scan left to right, record
each match and continue after it, else advance one character. -/
def findPHAux : Nat → List Char → List String
  | 0, _ => []
  | _, [] => []
  | Nat.succ fuel, c :: rest =>
      match phMatch (c :: rest) with
      | some (name, rest') => name :: findPHAux fuel rest'
      | none => findPHAux fuel rest

/-- All `{{name}}`-shaped placeholders left in a text, in order. -/
def findPlaceholders (s : String) : List String :=
  findPHAux s.data.length s.data

/-- Apply every token replacement in map order, as the source's loop does. -/
def substTokens (text : String) (tokens : List (String × String)) : String :=
  tokens.foldl (fun acc kv => pyReplace acc ("\x7b\x7b" ++ kv.1 ++ "\x7d\x7d") kv.2) text

/-- Code-point lexicographic `≤` on character lists, Python's string order. -/
def lexLe : List Char → List Char → Bool
  | [], _ => true
  | _ :: _, [] => false
  | x :: xs, y :: ys => if x = y then lexLe xs ys else decide (x < y)

/-- Python string `≤`. -/
def strLe (a b : String) : Bool :=
  lexLe a.data b.data

/-- Insert into a `strLe`-sorted list. -/
def insertSorted (x : String) : List String → List String
  | [] => [x]
  | y :: ys => if strLe x y then x :: y :: ys else y :: insertSorted x ys

/-- Insertion sort by `strLe`. -/
def sortStrs (l : List String) : List String :=
  l.foldr insertSorted []

/-- The distinct elements of `l` (Python's `set(l)`, one representative
per element). -/
def dedupStrs : List String → List String
  | [] => []
  | x :: xs => if x ∈ xs then dedupStrs xs else x :: dedupStrs xs

/-- Python `sorted(set(l))`: the distinct elements in ascending order. -/
def sortedDedup (l : List String) : List String :=
  sortStrs (dedupStrs l)

/-- `replace_tokens` (pack.py 591-601) on the template text: substitute
every token, then fail if any placeholder remains, naming them all. -/
def replace_tokens (text : String) (tokens : List (String × String)) :
    Except String String :=
  let t := substTokens text tokens
  let leftover := findPlaceholders t
  if leftover.isEmpty then .ok t
  else .error ("Unreplaced tokens remain in Inno template: "
               ++ joinSep ", " (sortedDedup leftover) ++ ".")

/-!  Basic lemmas about the JSON-object operations. -/

theorem jget_jset_self (m : JObj) (k : String) (v : JVal) :
    jget (jset m k v) k = some v := by
  induction m with
  | nil => simp [jget, jset]
  | cons hd tl ih =>
      by_cases h : hd.1 = k
      · simp [jget, jset, h]
      · simp [jget, jset, h, ih]

theorem jget_jset_ne (m : JObj) (k k' : String) (v : JVal) (h : k' ≠ k) :
    jget (jset m k v) k' = jget m k' := by
  induction m with
  | nil => simp [jget, jset, Ne.symm h]
  | cons hd tl ih =>
      obtain ⟨k0, v0⟩ := hd
      by_cases hk : k0 = k
      · simp [jget, jset, hk, Ne.symm h]
      · by_cases hk' : k0 = k'
        · simp [jget, jset, hk, hk', h]
        · simp [jget, jset, hk, hk', ih]

theorem jset_eq_of_jget (m : JObj) (k : String) (v : JVal)
    (h : jget m k = some v) : jset m k v = m := by
  induction m with
  | nil => simp [jget] at h
  | cons hd tl ih =>
      obtain ⟨k0, v0⟩ := hd
      by_cases hk : k0 = k
      · simp [jget, hk] at h
        simp [jset, hk, h]
      · simp [jget, hk] at h
        simp [jset, hk, ih h]

theorem truthyAt_jset_self (m : JObj) (k : String) (v : JVal) :
    truthyAt (jset m k v) k = truthy v := by
  simp [truthyAt, jgetD, jget_jset_self]

theorem truthyAt_jset_ne (m : JObj) (k k' : String) (v : JVal) (h : k' ≠ k) :
    truthyAt (jset m k v) k' = truthyAt m k' := by
  simp [truthyAt, jgetD, jget_jset_ne _ _ _ _ h]

theorem truthyAt_nil (k : String) : truthyAt [] k = false := by
  simp [truthyAt, jgetD, jget, truthy]

theorem jget_nonnil_of_truthyAt (m : JObj) (k : String)
    (h : truthyAt m k = true) : m ≠ [] := by
  intro he
  subst he
  simp [truthyAt_nil] at h

/-!  Basic string lemmas. -/

theorem mk_ne_empty {l : List Char} (h : l ≠ []) : String.mk l ≠ "" :=
  fun he => h (congrArg String.data he)

theorem str_append_ne_empty_left (a b : String) (h : a ≠ "") : a ++ b ≠ "" := by
  intro he
  apply h
  have hd : a.data ++ b.data = [] := congrArg String.data he
  have : a.data = [] := (List.append_eq_nil.mp hd).1
  calc a = String.mk a.data := rfl
    _ = String.mk [] := by rw [this]

/-- Rebuild a character list from its split (inverse of `splitChar`). -/
def interChar (sep : Char) : List (List Char) → List Char
  | [] => []
  | [a] => a
  | a :: b :: t => a ++ sep :: interChar sep (b :: t)

theorem splitChar_ne_nil (sep : Char) (xs : List Char) :
    splitChar sep xs ≠ [] := by
  cases xs with
  | nil => simp [splitChar]
  | cons x xs =>
      simp only [splitChar]
      rcases h : splitChar sep xs with _ | ⟨h1, t1⟩
      · simp
      · by_cases hx : x = sep <;> simp [hx]

theorem interChar_splitChar (sep : Char) (xs : List Char) :
    interChar sep (splitChar sep xs) = xs := by
  induction xs with
  | nil => simp [splitChar, interChar]
  | cons x xs ih =>
      simp only [splitChar]
      rcases h : splitChar sep xs with _ | ⟨h1, t1⟩
      · exact absurd h (splitChar_ne_nil sep xs)
      · rw [h] at ih
        by_cases hx : x = sep
        · simp only [hx, if_pos rfl, interChar]
          simpa [interChar] using congrArg (sep :: ·) ih
        · simp only [if_neg hx]
          cases t1 with
          | nil => simpa [interChar] using congrArg (x :: ·) ih
          | cons t1h t1t => simpa [interChar] using congrArg (x :: ·) ih

theorem dropWhile_eq_self_of_none {p : Char → Bool} {l : List Char}
    (h : ∀ c ∈ l, p c = false) : l.dropWhile p = l := by
  cases l with
  | nil => simp
  | cons x xs => simp [List.dropWhile, h x (List.mem_cons_self x xs)]

theorem pyStrip_eq_self_of_noSpace (l : List Char)
    (h : ∀ c ∈ l, isPySpace c = false) : pyStrip (String.mk l) = String.mk l := by
  unfold pyStrip
  have h1 : l.dropWhile isPySpace = l := dropWhile_eq_self_of_none h
  have h2 : ∀ c ∈ l.reverse, isPySpace c = false := by
    intro c hc
    exact h c (List.mem_reverse.mp hc)
  simp only [h1]
  rw [dropWhile_eq_self_of_none h2, List.reverse_reverse]

theorem isPySpace_false_of_digit (c : Char) (h : c.isDigit = true) :
    isPySpace c = false := by
  simp only [isPySpace, Bool.or_eq_false_iff, decide_eq_false_iff_not]
  refine ⟨⟨⟨⟨⟨?_, ?_⟩, ?_⟩, ?_⟩, ?_⟩, ?_⟩ <;>
    (intro he; subst he; simp [Char.isDigit] at h)

theorem isVerFormat_chars (s : String) (h : isVerFormat s = true) :
    ∀ c ∈ s.data, c.isDigit = true ∨ c = '.' := by
  unfold isVerFormat at h
  rcases hs : splitChar '.' s.data with _ | ⟨a, _ | ⟨b, t⟩⟩ <;> rw [hs] at h <;>
    try simp at h
  cases t with
  | cons th tt => simp at h
  | nil =>
      simp only [Bool.and_eq_true] at h
      have hrec : interChar '.' (splitChar '.' s.data) = s.data :=
        interChar_splitChar '.' s.data
      rw [hs] at hrec
      simp only [interChar] at hrec
      intro c hc
      rw [← hrec] at hc
      rcases List.mem_append.mp hc with hca | hcb
      · exact Or.inl (by simpa using List.all_eq_true.mp h.1.2 c hca)
      · rcases List.mem_cons.mp hcb with rfl | hcb'
        · exact Or.inr rfl
        · exact Or.inl (by simpa using List.all_eq_true.mp h.2 c hcb')

theorem pyStrip_eq_self_of_isVerFormat (s : String) (h : isVerFormat s = true) :
    pyStrip s = s := by
  have hchars : ∀ c ∈ s.data, isPySpace c = false := by
    intro c hc
    rcases isVerFormat_chars s h c hc with hd | rfl
    · exact isPySpace_false_of_digit c hd
    · rfl
  calc pyStrip s = pyStrip (String.mk s.data) := rfl
    _ = String.mk s.data := pyStrip_eq_self_of_noSpace s.data hchars
    _ = s := rfl

theorem isVerFormat_ne_empty (s : String) (h : isVerFormat s = true) : s ≠ "" := by
  intro he
  subst he
  simp [isVerFormat, splitChar] at h

theorem validate_version_ok (x w : String) (h : validate_version x = .ok w) :
    isVerFormat w = true ∧ pyStrip w = w ∧ w ≠ "" := by
  unfold validate_version at h
  by_cases h0 : pyStrip x = ""
  · simp [h0] at h
  · simp only [if_neg h0] at h
    by_cases h1 : isVerFormat (pyStrip x)
    · simp only [if_pos h1, Except.ok.injEq] at h
      subst h
      exact ⟨h1, pyStrip_eq_self_of_isVerFormat _ h1, isVerFormat_ne_empty _ h1⟩
    · simp [h1] at h

theorem validate_version_ok_of_isVerFormat (s : String)
    (h : isVerFormat s = true) : validate_version s = .ok s := by
  unfold validate_version
  rw [pyStrip_eq_self_of_isVerFormat s h]
  simp [isVerFormat_ne_empty s h, h]

theorem normalize_ne_empty (v : JVal) (p : String)
    (h : normalize_bundle_prefix v = some p) : p ≠ "" := by
  unfold normalize_bundle_prefix at h
  by_cases ht : truthy v
  · simp only [ht, Bool.not_true, Bool.false_eq_true, if_false] at h
    by_cases h0 : pyStrip (pyStr v) = ""
    · simp [h0] at h
    · simp only [if_neg h0] at h
      by_cases hd : (pyStrip (pyStr v)).data.getLast? = some '.'
      · simp only [if_pos hd, Option.some.injEq] at h
        exact h ▸ h0
      · simp only [if_neg hd, Option.some.injEq] at h
        subst h
        exact str_append_ne_empty_left _ _ h0
  · simp [ht] at h

theorem auto_bundle_prefix_ne_empty (cfg : JObj) : auto_bundle_prefix cfg ≠ "" := by
  unfold auto_bundle_prefix
  rcases h : normalize_bundle_prefix
      (.str ("com." ++ sanitize_identifier (getStrTruthy cfg "CompanyName") "example")) with _ | p
  · simp [h]
  · simpa [h] using normalize_ne_empty _ p h

theorem preferred_some_ne (prefs : JObj) (a p : String)
    (h : preferred_bundle_prefix prefs a = some p) : p ≠ "" := by
  unfold preferred_bundle_prefix at h
  by_cases hm : jmem (get_prefix_map prefs) a = true
  · simp only [hm, if_true] at h
    exact normalize_ne_empty _ _ h
  · simp only [hm, if_false] at h
    exact normalize_ne_empty _ _ h

/-- `ensure_bundle_identifier` on a truthy `BundleIdentifier`: no change,
no preference load. -/
theorem ebi_skip (env : Env) (prefs cfg : JObj) (u : List String)
    (h : truthyAt cfg "BundleIdentifier" = true) :
    ensure_bundle_identifier env prefs cfg u = (cfg, u, []) := by
  simp [ensure_bundle_identifier, h]

/-- `ensure_bundle_identifier` on a falsy `BundleIdentifier`: sets exactly
that field to a nonempty identifier, logs once, loads the preferences. -/
theorem ebi_fill (env : Env) (prefs cfg : JObj) (u : List String)
    (h : truthyAt cfg "BundleIdentifier" = false) :
    ∃ bid, bid ≠ "" ∧
      ensure_bundle_identifier env prefs cfg u =
        (jset cfg "BundleIdentifier" (.str bid),
         u ++ ["Added default BundleIdentifier"], [.loadPrefs]) := by
  unfold ensure_bundle_identifier
  simp only [h, Bool.false_eq_true, if_false]
  rcases hp : preferred_bundle_prefix prefs ( auto_bundle_prefix cfg) with _ | pp
  · simp only [hp]
    exact ⟨_, str_append_ne_empty_left _ _ (auto_bundle_prefix_ne_empty cfg), rfl⟩
  · simp only [hp]
    exact ⟨_, str_append_ne_empty_left _ _ (preferred_some_ne _ _ _ hp), rfl⟩

/-- Which `Project` values keep `mac_defaults` from touching the config:
the field is absent, or is a nonempty string (a falsy or non-string value
would be dropped and re-derived, and null or empty strings overwritten). -/
def projOk (cfg : JObj) : Bool :=
  match jget cfg "Project" with
  | none => true
  | some (.str s) => s ≠ ""
  | some _ => false

theorem mac_defaults_fst_frame (env : Env) (cfg : JObj) (k : String)
    (hk : k ≠ "Project") :
    jget (mac_defaults env cfg).1 k = jget cfg k := by
  unfold mac_defaults
  rcases hq : getStrTruthy cfg "Project" with _ | pr
  · rcases hf : env.firstCsproj with _ | p
    · simp
    · simp [jget_jset_ne _ _ _ _ hk]
  · simp

theorem mac_defaults_fst_presFrame (env : Env) (cfg : JObj) (k : String)
    (hp : projOk cfg = true) (hk : jmem cfg k = true) :
    jget (mac_defaults env cfg).1 k = jget cfg k := by
  by_cases hkp : k = "Project"
  · subst hkp
    unfold projOk at hp
    unfold jmem at hk
    rcases hj : jget cfg "Project" with _ | v
    · simp [hj] at hk
    · rw [hj] at hp
      rcases v with _ | b | n | s | xs | fs <;> simp at hp
      have hq : getStrTruthy cfg "Project" = some s := by
        simp [getStrTruthy, hj, hp]
      unfold mac_defaults
      simp [hq, hj]
  · exact mac_defaults_fst_frame env cfg k hkp

theorem mac_defaults_snd_good (env : Env) (cfg : JObj) :
    truthyAt (mac_defaults env cfg).2 "RuntimeIdentifiers" = true ∧
      truthyAt (mac_defaults env cfg).2 "InfoPlist" = true := by
  unfold mac_defaults
  rcases hq : getStrTruthy cfg "Project" with _ | pr <;>
    [rcases hf : env.firstCsproj with _ | p; skip] <;>
    simp [truthyAt, jgetD, jget, truthy, defaultRids]

/-- An explicitly null `Mac` key means "disabled": the step is a no-op. -/
theorem mac_null_skip (env : Env) (cfg : JObj) (u : List String)
    (h : jget cfg "Mac" = some .null) :
    ensure_mac_section env cfg u = .ok (cfg, u) := by
  unfold ensure_mac_section
  rw [h]

/-- A `Mac` mapping that already has truthy `RuntimeIdentifiers` and
`InfoPlist` is left untouched. -/
theorem mac_good_skip (env : Env) (cfg : JObj) (u : List String) (m : JObj)
    (h : jget cfg "Mac" = some (.obj m))
    (h1 : truthyAt m "RuntimeIdentifiers" = true)
    (h2 : truthyAt m "InfoPlist" = true) :
    ensure_mac_section env cfg u = .ok (cfg, u) := by
  have hm : m ≠ [] := jget_nonnil_of_truthyAt m _ h1
  unfold ensure_mac_section
  rw [h]
  simp [truthy, hm, h1, h2]

/-- An absent `Mac` key gets the synthesized defaults (and `mac_defaults`
may fill in an absent `Project`). -/
theorem mac_absent_fill (env : Env) (cfg : JObj) (u : List String)
    (h : jget cfg "Mac" = none) :
    ensure_mac_section env cfg u =
      .ok (jset (mac_defaults env cfg).1 "Mac" (.obj (mac_defaults env cfg).2),
           u ++ ["Added default Mac packaging section"]) := by
  unfold ensure_mac_section
  rw [h]

/-- The two-field section a falsy present `Mac` value is replaced by. -/
def macFalsyFill : JObj :=
  [("RuntimeIdentifiers", defaultRids),
   ("InfoPlist", JVal.str "Installer/templates/Info.plist")]

/-- Any successful `ensure_mac_section` either keeps the config, rewrites
only the `Mac` key, or (when `Mac` was absent) rewrites `Mac` on top of
`mac_defaults`'s output; and afterwards `Mac` is null or a mapping with
truthy `RuntimeIdentifiers` and `InfoPlist`. -/
theorem ensure_mac_ok_main (env : Env) (c : JObj) (u : List String) (c' : JObj)
    (u' : List String) (h : ensure_mac_section env c u = .ok (c', u')) :
    (c' = c ∨ (∃ X, c' = jset c "Mac" X) ∨
      (jget c "Mac" = none ∧ ∃ X, c' = jset (mac_defaults env c).1 "Mac" X)) ∧
    (jget c' "Mac" = some .null ∨
      ∃ m, jget c' "Mac" = some (.obj m) ∧ truthyAt m "RuntimeIdentifiers" = true ∧
        truthyAt m "InfoPlist" = true) := by
  rcases hm : jget c "Mac" with _ | v
  · rw [mac_absent_fill env c u hm] at h
    simp only [Except.ok.injEq, Prod.mk.injEq] at h
    obtain ⟨hc, _⟩ := h
    subst hc
    refine ⟨Or.inr (Or.inr ⟨rfl, _, rfl⟩), Or.inr ⟨_, jget_jset_self _ _ _, ?_⟩⟩
    exact mac_defaults_snd_good env c
  · rcases v with _ | b | n | s | xs | fs
    · rw [mac_null_skip env c u hm] at h
      simp only [Except.ok.injEq, Prod.mk.injEq] at h
      obtain ⟨hc, _⟩ := h
      subst hc
      exact ⟨Or.inl rfl, Or.inl hm⟩
    · unfold ensure_mac_section at h
      rw [hm] at h
      by_cases hb : b = true
      · simp [hb, truthy] at h
      · simp [hb, truthy, Except.ok.injEq, Prod.mk.injEq] at h
        obtain ⟨hc, _⟩ := h
        subst hc
        refine ⟨Or.inr (Or.inl ⟨_, rfl⟩), Or.inr ⟨_, jget_jset_self _ _ _, ?_, ?_⟩⟩
        · simp [truthyAt, jgetD, jget, truthy, defaultRids]
        · simp [truthyAt, jgetD, jget, truthy]
    · unfold ensure_mac_section at h
      rw [hm] at h
      by_cases hn : n = 0
      · simp [hn, truthy, Except.ok.injEq, Prod.mk.injEq] at h
        obtain ⟨hc, _⟩ := h
        subst hc
        refine ⟨Or.inr (Or.inl ⟨_, rfl⟩), Or.inr ⟨_, jget_jset_self _ _ _, ?_, ?_⟩⟩
        · simp [truthyAt, jgetD, jget, truthy, defaultRids]
        · simp [truthyAt, jgetD, jget, truthy]
      · simp [hn, truthy] at h
    · unfold ensure_mac_section at h
      rw [hm] at h
      by_cases hs : s = ""
      · simp [hs, truthy, Except.ok.injEq, Prod.mk.injEq] at h
        obtain ⟨hc, _⟩ := h
        subst hc
        refine ⟨Or.inr (Or.inl ⟨_, rfl⟩), Or.inr ⟨_, jget_jset_self _ _ _, ?_, ?_⟩⟩
        · simp [truthyAt, jgetD, jget, truthy, defaultRids]
        · simp [truthyAt, jgetD, jget, truthy]
      · simp [hs, truthy] at h
    · unfold ensure_mac_section at h
      rw [hm] at h
      by_cases hx : xs = []
      · simp [hx, truthy, Except.ok.injEq, Prod.mk.injEq] at h
        obtain ⟨hc, _⟩ := h
        subst hc
        refine ⟨Or.inr (Or.inl ⟨_, rfl⟩), Or.inr ⟨_, jget_jset_self _ _ _, ?_, ?_⟩⟩
        · simp [truthyAt, jgetD, jget, truthy, defaultRids]
        · simp [truthyAt, jgetD, jget, truthy]
      · simp [hx, truthy] at h
    · unfold ensure_mac_section at h
      rw [hm] at h
      by_cases hx : fs = []
      · simp [hx, truthy, Except.ok.injEq, Prod.mk.injEq] at h
        obtain ⟨hc, _⟩ := h
        subst hc
        refine ⟨Or.inr (Or.inl ⟨_, rfl⟩), Or.inr ⟨_, jget_jset_self _ _ _, ?_, ?_⟩⟩
        · simp [truthyAt, jgetD, jget, truthy, defaultRids]
        · simp [truthyAt, jgetD, jget, truthy]
      · by_cases hR : truthyAt fs "RuntimeIdentifiers" = true
        · by_cases hI : truthyAt fs "InfoPlist" = true
          · simp [truthy, hx, hR, hI, Except.ok.injEq, Prod.mk.injEq] at h
            obtain ⟨hc, _⟩ := h
            subst hc
            exact ⟨Or.inl rfl, Or.inr ⟨fs, hm, hR, hI⟩⟩
          · simp [truthy, hx, hR, hI, Except.ok.injEq, Prod.mk.injEq] at h
            obtain ⟨hc, _⟩ := h
            subst hc
            refine ⟨Or.inr (Or.inl ⟨_, rfl⟩), Or.inr ⟨_, jget_jset_self _ _ _, ?_, ?_⟩⟩
            · rw [truthyAt_jset_ne _ _ _ _ (by decide : "RuntimeIdentifiers" ≠ "InfoPlist")]
              exact hR
            · rw [truthyAt_jset_self]
              simp [truthy]
        · by_cases hI : truthyAt (jset fs "RuntimeIdentifiers" defaultRids) "InfoPlist" = true
          · simp [truthy, hx, hR, hI, Except.ok.injEq, Prod.mk.injEq] at h
            obtain ⟨hc, _⟩ := h
            subst hc
            refine ⟨Or.inr (Or.inl ⟨_, rfl⟩), Or.inr ⟨_, jget_jset_self _ _ _, ?_, ?_⟩⟩
            · rw [truthyAt_jset_self]
              simp [truthy, defaultRids]
            · exact hI
          · simp [truthy, hx, hR, hI, Except.ok.injEq, Prod.mk.injEq] at h
            obtain ⟨hc, _⟩ := h
            subst hc
            refine ⟨Or.inr (Or.inl ⟨_, rfl⟩), Or.inr ⟨_, jget_jset_self _ _ _, ?_, ?_⟩⟩
            · rw [truthyAt_jset_ne _ _ _ _ (by decide : "RuntimeIdentifiers" ≠ "InfoPlist"),
                truthyAt_jset_self]
              simp [truthy, defaultRids]
            · rw [truthyAt_jset_self]
              simp [truthy]

theorem ensure_mac_ok_frame (env : Env) (c : JObj) (u : List String) (c' : JObj)
    (u' : List String) (h : ensure_mac_section env c u = .ok (c', u'))
    (k : String) (hk1 : k ≠ "Mac") (hk2 : k ≠ "Project") :
    jget c' k = jget c k := by
  rcases (ensure_mac_ok_main env c u c' u' h).1 with hc | ⟨X, hc⟩ | ⟨hnone, X, hc⟩
  · rw [hc]
  · rw [hc, jget_jset_ne _ _ _ _ hk1]
  · rw [hc, jget_jset_ne _ _ _ _ hk1, mac_defaults_fst_frame env c k hk2]

theorem ensure_mac_ok_presFrame (env : Env) (c : JObj) (u : List String)
    (c' : JObj) (u' : List String) (h : ensure_mac_section env c u = .ok (c', u'))
    (hp : projOk c = true) (k : String) (hk1 : k ≠ "Mac")
    (hkm : jmem c k = true) : jget c' k = jget c k := by
  rcases (ensure_mac_ok_main env c u c' u' h).1 with hc | ⟨X, hc⟩ | ⟨hnone, X, hc⟩
  · rw [hc]
  · rw [hc, jget_jset_ne _ _ _ _ hk1]
  · rw [hc, jget_jset_ne _ _ _ _ hk1, mac_defaults_fst_presFrame env c k hp hkm]

/-- Any successful `ensure_version` sets exactly the `Version` field, to a
string in major.minor shape. -/
theorem ensure_version_ok_main (env : Env) (c : JObj) (u : List String)
    (c' : JObj) (u' : List String) (h : ensure_version env c u = .ok (c', u')) :
    ∃ w, c' = jset c "Version" (.str w) ∧ isVerFormat w = true := by
  unfold ensure_version at h
  by_cases ht : truthy (jgetD c "Version" .null) = true
  · simp only [ht, if_true] at h
    rcases hv : validate_version (pyStr (jgetD c "Version" .null)) with e | w
    · rw [hv] at h
      simp at h
    · rw [hv] at h
      simp only [Except.ok.injEq, Prod.mk.injEq] at h
      exact ⟨w, h.1.symm, (validate_version_ok _ _ hv).1⟩
  · simp only [ht, if_false, Bool.false_eq_true] at h
    rcases hmv : (match getStrTruthy c "Project" with
      | some pr => if env.pathExists pr = true then env.csprojVersion pr else none
      | none =>
          match env.firstCsproj with
          | some p => if env.pathExists p.relPath = true then env.csprojVersion p.relPath else none
          | none => none) with _ | ev
    · rw [hmv] at h
      simp only [Except.ok.injEq, Prod.mk.injEq] at h
      exact ⟨DEFAULT_VERSION, h.1.symm, by decide⟩
    · rw [hmv] at h
      by_cases he : ev = ""
      · simp only [he, ne_eq, not_true_eq_false, if_false] at h
        simp only [Except.ok.injEq, Prod.mk.injEq] at h
        exact ⟨DEFAULT_VERSION, h.1.symm, by decide⟩
      · simp only [ne_eq, he, not_false_eq_true, if_true] at h
        rcases hv : validate_version ev with e | w
        · rw [hv] at h
          simp only [Except.ok.injEq, Prod.mk.injEq] at h
          exact ⟨DEFAULT_VERSION, h.1.symm, by decide⟩
        · rw [hv] at h
          simp only [Except.ok.injEq, Prod.mk.injEq] at h
          exact ⟨w, h.1.symm, (validate_version_ok _ _ hv).1⟩

/-- A truthy `Version` string already in shape is revalidated to itself:
the step changes nothing. -/
theorem ver_skip (env : Env) (c : JObj) (u : List String) (s : String)
    (h : jget c "Version" = some (.str s)) (hf : isVerFormat s = true) :
    ensure_version env c u = .ok (c, u) := by
  unfold ensure_version
  have hd : jgetD c "Version" .null = .str s := by simp [jgetD, h]
  rw [hd]
  have ht : truthy (JVal.str s) = true := by
    simp [truthy, isVerFormat_ne_empty s hf]
  simp only [ht, if_true, pyStr, validate_version_ok_of_isVerFormat s hf]
  rw [jset_eq_of_jget c _ _ h]

theorem pub_skip_truthy (env : Env) (c : JObj) (u : List String)
    (h : truthyAt c "PublisherUrl" = true) :
    ensure_publisher_url env c u = (c, u) := by
  simp [ensure_publisher_url, h]

theorem pub_skip_empty (env : Env) (c : JObj) (u : List String)
    (h : publisher_url_from_remote env.remoteUrl = "") :
    ensure_publisher_url env c u = (c, u) := by
  unfold ensure_publisher_url
  by_cases ht : truthyAt c "PublisherUrl" = true <;> simp [ht, h]

theorem pub_fill (env : Env) (c : JObj) (u : List String)
    (h1 : truthyAt c "PublisherUrl" = false)
    (h2 : publisher_url_from_remote env.remoteUrl ≠ "") :
    ensure_publisher_url env c u =
      (jset c "PublisherUrl" (.str (publisher_url_from_remote env.remoteUrl)),
       u ++ ["Added default PublisherUrl from git remote"]) := by
  simp [ensure_publisher_url, h1, h2]

theorem pub_frame (env : Env) (c : JObj) (u : List String) (k : String)
    (hk : k ≠ "PublisherUrl") :
    jget (ensure_publisher_url env c u).1 k = jget c k := by
  unfold ensure_publisher_url
  by_cases ht : truthyAt c "PublisherUrl" = true
  · simp [ht]
  · by_cases hu : publisher_url_from_remote env.remoteUrl = ""
    · simp [ht, hu]
    · simp [ht, hu, jget_jset_ne _ _ _ _ hk]

theorem pub_post (env : Env) (c : JObj) (u : List String) :
    truthyAt (ensure_publisher_url env c u).1 "PublisherUrl" = true ∨
      publisher_url_from_remote env.remoteUrl = "" := by
  unfold ensure_publisher_url
  by_cases ht : truthyAt c "PublisherUrl" = true
  · exact Or.inl (by simp [ht])
  · by_cases hu : publisher_url_from_remote env.remoteUrl = ""
    · exact Or.inr hu
    · left
      simp only [ht, Bool.false_eq_true, if_false, hu]
      simp [truthyAt_jset_self, truthy, hu]

theorem get_prefix_map_jset (prefs : JObj) (X : JObj) :
    get_prefix_map (jset prefs "BundleIdentifierPrefixMap" (.obj X)) = X := by
  unfold get_prefix_map
  rw [jget_jset_self]

/-- `remember_bundle_prefix` touches at most the prefix-map key. -/
theorem remember_frame (cfg prefs : JObj) (k : String)
    (hk : k ≠ "BundleIdentifierPrefixMap") :
    jget ( remember_bundle_prefix cfg prefs).1 k = jget prefs k := by
  unfold remember_bundle_prefix
  rcases hx : extract_bundle_prefix (jgetD cfg "BundleIdentifier" .null) with _ | a
  · simp
  · by_cases he : jvalEqStr (jget (get_prefix_map prefs) ( auto_bundle_prefix cfg)) a = true <;>
      simp [he, jget_jset_ne _ _ _ _ hk]

/-- Inside the prefix map, only the auto-prefix entry can change. -/
theorem remember_map_frame (cfg prefs : JObj) (k : String)
    (hk : k ≠ auto_bundle_prefix cfg) :
    jget (get_prefix_map ( remember_bundle_prefix cfg prefs).1) k =
      jget (get_prefix_map prefs) k := by
  unfold remember_bundle_prefix
  rcases hx : extract_bundle_prefix (jgetD cfg "BundleIdentifier" .null) with _ | a
  · simp
  · by_cases he : jvalEqStr (jget (get_prefix_map prefs) ( auto_bundle_prefix cfg)) a = true
    · simp [he]
    · simp only [he, Bool.false_eq_true, if_false]
      rw [get_prefix_map_jset, jget_jset_ne _ _ _ _ hk]

/-- Running the remember step again on its own output is a no-op: the
document is unchanged and nothing is saved. -/
theorem remember_fix (cfg prefs : JObj) :
    remember_bundle_prefix cfg ( remember_bundle_prefix cfg prefs).1 =
      (( remember_bundle_prefix cfg prefs).1,
       match extract_bundle_prefix (jgetD cfg "BundleIdentifier" .null) with
       | none => ([] : List Ev)
       | some _ => [Ev.loadPrefs]) := by
  rcases hx : extract_bundle_prefix (jgetD cfg "BundleIdentifier" .null) with _ | a
  · simp [ remember_bundle_prefix, hx]
  · by_cases he : jvalEqStr (jget (get_prefix_map prefs) ( auto_bundle_prefix cfg)) a = true
    · simp [ remember_bundle_prefix, hx, he]
    · unfold remember_bundle_prefix
      simp only [hx, he, Bool.false_eq_true, if_false]
      rw [get_prefix_map_jset, jget_jset_self]
      simp [jvalEqStr]

/-- A config on which every backfill step is a no-op: truthy bundle id,
canonical `Mac` section, well-formed `Version`, and a `PublisherUrl` that
is either set or underivable from the environment's remote. -/
def settled (env : Env) (c : JObj) : Prop :=
  truthyAt c "BundleIdentifier" = true ∧
  (jget c "Mac" = some .null ∨
    ∃ m, jget c "Mac" = some (.obj m) ∧ truthyAt m "RuntimeIdentifiers" = true ∧
      truthyAt m "InfoPlist" = true) ∧
  (∃ w, jget c "Version" = some (.str w) ∧ isVerFormat w = true) ∧
  (truthyAt c "PublisherUrl" = true ∨ publisher_url_from_remote env.remoteUrl = "")

/-- Unpack a successful backfill pipeline into its stages. -/
theorem run_backfill_ok_elim (env : Env) (p d : JObj) (l : Bool) (out : PassOut)
    (h : run_backfill env p d l = .ok out) :
    ∃ d2 u2 d3 u3,
      ensure_mac_section env (ensure_bundle_identifier env p d []).1
          (ensure_bundle_identifier env p d []).2.1 = .ok (d2, u2) ∧
      ensure_version env d2 u2 = .ok (d3, u3) ∧
      out.cfg = (ensure_publisher_url env d3 u3).1 ∧
      out.updates = (ensure_publisher_url env d3 u3).2 ∧
      out.prefs = ( remember_bundle_prefix out.cfg p).1 ∧
      out.trace = [Ev.readCfg] ++ (if l then [Ev.writeCfg] else [])
        ++ (ensure_bundle_identifier env p d []).2.2
        ++ ( remember_bundle_prefix out.cfg p).2
        ++ (if out.updates.isEmpty then [] else [Ev.writeCfg]) := by
  unfold run_backfill at h
  rcases hm : ensure_mac_section env (ensure_bundle_identifier env p d []).1
      (ensure_bundle_identifier env p d []).2.1 with e | r2
  · simp only [hm] at h
    exact Except.noConfusion h
  · simp only [hm] at h
    rcases hv : ensure_version env r2.1 r2.2 with e | r3
    · simp only [hv] at h
      exact Except.noConfusion h
    · simp only [hv, Except.ok.injEq] at h
      refine ⟨r2.1, r2.2, r3.1, r3.2, rfl, by rw [hv], ?_, ?_, ?_, ?_⟩ <;>
        rw [← h]

/-- After any successful backfill pipeline the config is settled. -/
theorem run_backfill_settled (env : Env) (p d : JObj) (l : Bool) (out : PassOut)
    (h : run_backfill env p d l = .ok out) : settled env out.cfg := by
  obtain ⟨d2, u2, d3, u3, hm, hv, hcfg, hupd, hpfs, htr⟩ :=
    run_backfill_ok_elim env p d l out h
  obtain ⟨w, hd3, hwf⟩ := ensure_version_ok_main env d2 u2 d3 u3 hv
  have hver : jget out.cfg "Version" = some (.str w) := by
    rw [hcfg, pub_frame env d3 u3 _ (by decide), hd3, jget_jset_self]
  have hbid1 : truthyAt (ensure_bundle_identifier env p d []).1 "BundleIdentifier" = true := by
    by_cases hb : truthyAt d "BundleIdentifier" = true
    · rw [ebi_skip env p d [] hb]
      exact hb
    · obtain ⟨bid, hne, heq⟩ := ebi_fill env p d []
        (Bool.not_eq_true _ ▸ Bool.of_not_eq_true hb)
      rw [heq]
      simp [truthyAt_jset_self, truthy, hne]
  have hbid2 : jget d2 "BundleIdentifier" = jget (ensure_bundle_identifier env p d []).1 "BundleIdentifier" :=
    ensure_mac_ok_frame env _ _ d2 u2 hm _ (by decide) (by decide)
  have hbid3 : jget out.cfg "BundleIdentifier" = jget d2 "BundleIdentifier" := by
    rw [hcfg, pub_frame env d3 u3 _ (by decide), hd3,
      jget_jset_ne _ _ _ _ (by decide)]
  have hbid : truthyAt out.cfg "BundleIdentifier" = true := by
    unfold truthyAt jgetD at hbid1 ⊢
    rw [hbid3, hbid2]
    exact hbid1
  have hmac2 := (ensure_mac_ok_main env _ _ d2 u2 hm).2
  have hmacout : jget out.cfg "Mac" = jget d2 "Mac" := by
    rw [hcfg, pub_frame env d3 u3 _ (by decide), hd3,
      jget_jset_ne _ _ _ _ (by decide)]
  have hmac : jget out.cfg "Mac" = some .null ∨
      ∃ m, jget out.cfg "Mac" = some (.obj m) ∧ truthyAt m "RuntimeIdentifiers" = true ∧
        truthyAt m "InfoPlist" = true := by
    rw [hmacout]
    exact hmac2
  have hpub : truthyAt out.cfg "PublisherUrl" = true ∨
      publisher_url_from_remote env.remoteUrl = "" := by
    rcases pub_post env d3 u3 with hp | hp
    · left
      rw [hcfg]
      exact hp
    · exact Or.inr hp
  exact ⟨hbid, hmac, ⟨w, hver, hwf⟩, hpub⟩

/-- On a settled config every backfill step is a no-op: the pass succeeds
with no change log, no config write, and only the remember step touching
the preferences. -/
theorem run_backfill_settled_skip (env : Env) (p c : JObj)
    (h : settled env c) :
    run_backfill env p c false =
      .ok { cfg := c, updates := [], prefs := ( remember_bundle_prefix c p).1,
            trace := Ev.readCfg :: ( remember_bundle_prefix c p).2 } := by
  obtain ⟨h1, h2, ⟨w, hw, hwf⟩, h4⟩ := h
  unfold run_backfill
  rw [ebi_skip env p c [] h1]
  have hmac : ensure_mac_section env c [] = .ok (c, []) := by
    rcases h2 with hn | ⟨m, hm, hR, hI⟩
    · exact mac_null_skip env c [] hn
    · exact mac_good_skip env c [] m hm hR hI
  have hpub : ensure_publisher_url env c [] = (c, []) := by
    rcases h4 with hp | hp
    · exact pub_skip_truthy env c [] hp
    · exact pub_skip_empty env c [] hp
  simp only [hmac, ver_skip env c [] w hw hwf, hpub]
  simp

theorem ensure_cfg_ok_elim (env : Env) (p : JObj) (data0 : JVal) (out : PassOut)
    (h : ensure_cfg_existing env p data0 = .ok out) :
    ∃ d l, run_backfill env p d l = .ok out := by
  rcases data0 with _ | b | n | s | xs | fs
  · exact Except.noConfusion h
  · exact Except.noConfusion h
  · exact Except.noConfusion h
  · exact Except.noConfusion h
  · rcases xs with _ | ⟨x, rest⟩
    · exact Except.noConfusion h
    · rcases x with _ | b | n | s | ys | gs
      · exact Except.noConfusion h
      · exact Except.noConfusion h
      · exact Except.noConfusion h
      · exact Except.noConfusion h
      · exact Except.noConfusion h
      · exact ⟨gs, true, h⟩
  · exact ⟨fs, false, h⟩

/-- C2: Reconciliation is idempotent.  If a pass over any existing config
document succeeds with outcome `out`, then a second pass over the
returned document, against the same environment (same git remote) and
the preference document the first pass left behind, succeeds, returns
the identical document and preference document, logs no change, and
neither rewrites the config file nor saves the preferences. -/
theorem C2_reconcile_idempotent (env : Env) (prefs0 : JObj) (data0 : JVal)
    (out : PassOut) (h : ensure_cfg_existing env prefs0 data0 = .ok out) :
    ∃ t, ensure_cfg_existing env out.prefs (.obj out.cfg) =
        .ok { cfg := out.cfg, updates := [], prefs := out.prefs, trace := t } ∧
      Ev.writeCfg ∉ t ∧ Ev.savePrefs ∉ t := by
  obtain ⟨d, l, hrb⟩ := ensure_cfg_ok_elim env prefs0 data0 out h
  have hset := run_backfill_settled env prefs0 d l out hrb
  obtain ⟨d2, u2, d3, u3, _, _, _, _, hpfs, _⟩ :=
    run_backfill_ok_elim env prefs0 d l out hrb
  have hsecond := run_backfill_settled_skip env out.prefs out.cfg hset
  have hfix := remember_fix out.cfg prefs0
  have hp1 : ( remember_bundle_prefix out.cfg out.prefs).1 = out.prefs := by
    rw [hpfs]
    rw [hfix]
  refine ⟨Ev.readCfg :: ( remember_bundle_prefix out.cfg out.prefs).2, ?_, ?_, ?_⟩
  · show run_backfill env out.prefs out.cfg false = _
    rw [hsecond, hp1]
  · rw [hpfs, hfix]
    rcases extract_bundle_prefix (jgetD out.cfg "BundleIdentifier" .null) with _ | a <;>
      simp
  · rw [hpfs, hfix]
    rcases extract_bundle_prefix (jgetD out.cfg "BundleIdentifier" .null) with _ | a <;>
      simp

/-- A fully populated document on which no backfill step fires. -/
def dQuiet : JObj :=
  [("BundleIdentifier", .str "com.a.b"), ("Mac", .null),
   ("Version", .str "1.2"), ("PublisherUrl", .str "x")]

/-- The outcome of reconciling `dQuiet` against the empty environment. -/
def outQuiet : PassOut :=
  { cfg := dQuiet, updates := [],
    prefs := [("BundleIdentifierPrefixMap", .obj [("com.example.", .str "com.a.")])],
    trace := [.readCfg, .loadPrefs, .savePrefs] }

/-- Witness for C2 at a concrete document. -/
theorem C2_reconcile_idempotent_witness :
    ensure_cfg_existing trivEnv [] (.obj dQuiet) = .ok outQuiet ∧
    ∃ t, ensure_cfg_existing trivEnv outQuiet.prefs (.obj outQuiet.cfg) =
        .ok { cfg := outQuiet.cfg, updates := [], prefs := outQuiet.prefs, trace := t } ∧
      Ev.writeCfg ∉ t ∧ Ev.savePrefs ∉ t :=
  ⟨rfl, C2_reconcile_idempotent trivEnv [] (.obj dQuiet) outQuiet rfl⟩

theorem ebi_events (env : Env) (prefs cfg : JObj) (u : List String) :
    (ensure_bundle_identifier env prefs cfg u).2.2 = [] ∨
    (ensure_bundle_identifier env prefs cfg u).2.2 = [Ev.loadPrefs] := by
  by_cases hb : truthyAt cfg "BundleIdentifier" = true
  · rw [ebi_skip env prefs cfg u hb]
    exact Or.inl rfl
  · obtain ⟨bid, _, heq⟩ := ebi_fill env prefs cfg u (by simpa using hb)
    rw [heq]
    exact Or.inr rfl

theorem remember_events (cfg prefs : JObj) :
    ( remember_bundle_prefix cfg prefs).2 = [] ∨
    ( remember_bundle_prefix cfg prefs).2 = [Ev.loadPrefs] ∨
    ( remember_bundle_prefix cfg prefs).2 = [Ev.loadPrefs, Ev.savePrefs] := by
  unfold remember_bundle_prefix
  rcases hx : extract_bundle_prefix (jgetD cfg "BundleIdentifier" .null) with _ | a
  · exact Or.inl rfl
  · by_cases he : jvalEqStr (jget (get_prefix_map prefs) ( auto_bundle_prefix cfg)) a = true
    · simp [he]
    · simp [he]

theorem run_backfill_counts (env : Env) (p d : JObj) (l : Bool) (out : PassOut)
    (h : run_backfill env p d l = .ok out) :
    out.trace.count Ev.readCfg = 1 ∧
    out.trace.count Ev.writeCfg ≤ (if l then 2 else 1) ∧
    out.trace.count Ev.loadPrefs ≤ 2 ∧
    out.trace.count Ev.savePrefs ≤ 1 := by
  obtain ⟨d2, u2, d3, u3, hm, hv, hcfg, hupd, hpfs, htr⟩ :=
    run_backfill_ok_elim env p d l out h
  rw [htr]
  rcases ebi_events env p d [] with he1 | he1 <;>
    rcases remember_events out.cfg p with he2 | he2 | he2 <;>
      rcases l with _ | _ <;>
        by_cases hu : out.updates.isEmpty = true <;>
          simp [he1, he2, hu, List.count_append, List.count_cons, List.count_nil]

/-- C9 (amended): within one reconciliation pass over an existing config
file, the config document is read exactly once and written at most twice
— at most once when the persisted document was already an object (the
second write only pays for legacy list normalization) — while the
preference document is loaded at most twice and saved at most once. -/
theorem C9_io_bounds (env : Env) (p : JObj) (data0 : JVal) (out : PassOut)
    (h : ensure_cfg_existing env p data0 = .ok out) :
    out.trace.count Ev.readCfg = 1 ∧
    out.trace.count Ev.writeCfg ≤ 2 ∧
    out.trace.count Ev.loadPrefs ≤ 2 ∧
    out.trace.count Ev.savePrefs ≤ 1 ∧
    (∀ f : JObj, data0 = .obj f → out.trace.count Ev.writeCfg ≤ 1) := by
  rcases data0 with _ | b | n | s | xs | fs
  · exact Except.noConfusion h
  · exact Except.noConfusion h
  · exact Except.noConfusion h
  · exact Except.noConfusion h
  · rcases xs with _ | ⟨x, rest⟩
    · exact Except.noConfusion h
    · rcases x with _ | b | n | s | ys | gs
      · exact Except.noConfusion h
      · exact Except.noConfusion h
      · exact Except.noConfusion h
      · exact Except.noConfusion h
      · exact Except.noConfusion h
      · obtain ⟨h1, h2, h3, h4⟩ := run_backfill_counts env p gs true out h
        refine ⟨h1, by simpa using h2, h3, h4, ?_⟩
        intro f hf
        exact absurd hf (by simp)
  · obtain ⟨h1, h2, h3, h4⟩ := run_backfill_counts env p fs false out h
    refine ⟨h1, le_trans (by simpa using h2) (by omega), h3, h4, ?_⟩
    intro f hf
    simpa using h2

/-- The parsed form of a legacy single-element list-wrapped config. -/
def dLegacy1 : JVal := .arr [.obj [("CompanyName", .str "Acme")]]

/-- The outcome of reconciling `dLegacy1` against the empty environment. -/
def outLegacy : PassOut :=
  { cfg := [("CompanyName", .str "Acme"),
            ("BundleIdentifier", .str "com.acme.app"),
            ("Mac", .obj [("RuntimeIdentifiers", defaultRids),
                          ("IconIcns", .str ""),
                          ("InfoPlist", .str "Installer/templates/Info.plist")]),
            ("Version", .str "0.1")],
    updates := ["Added default BundleIdentifier",
                "Added default Mac packaging section",
                "Added default Version"],
    prefs := [("BundleIdentifierPrefixMap", .obj [("com.acme.", .str "com.acme.")])],
    trace := [.readCfg, .writeCfg, .loadPrefs, .loadPrefs, .savePrefs, .writeCfg] }

/-- Counterexample to C9 as stated: a legacy list-wrapped config missing
several fields makes the pass write the config document twice and load
the preference document twice. -/
theorem C9_counterexample :
    ensure_cfg_existing trivEnv [] dLegacy1 = .ok outLegacy ∧
    outLegacy.trace.count Ev.writeCfg = 2 ∧
    outLegacy.trace.count Ev.loadPrefs = 2 :=
  ⟨rfl, by decide, by decide⟩

/-- C10: the remember step changes at most the prefix-map entry keyed by
the computed auto-prefix: every other top-level preference key, every
other prefix-map entry, and the legacy single-prefix field read the same
in the document it persists as in the one it loaded. -/
theorem C10_remember_frame (cfg prefs : JObj) (k k' : String)
    (hk : k ≠ "BundleIdentifierPrefixMap") (hk' : k' ≠ auto_bundle_prefix cfg) :
    jget ( remember_bundle_prefix cfg prefs).1 k = jget prefs k ∧
    jget (get_prefix_map ( remember_bundle_prefix cfg prefs).1) k' =
      jget (get_prefix_map prefs) k' ∧
    jget ( remember_bundle_prefix cfg prefs).1 "BundleIdentifierPrefix" =
      jget prefs "BundleIdentifierPrefix" :=
  ⟨remember_frame cfg prefs k hk, remember_map_frame cfg prefs k' hk',
   remember_frame cfg prefs _ (by decide)⟩

/-- A config whose user-edited bundle identifier prefix differs from the
auto-derived one. -/
def cfgAcme : JObj :=
  [("CompanyName", .str "Acme"), ("BundleIdentifier", .str "com.acme2.widget")]

/-- A preference document with an unrelated key, an unrelated prefix-map
entry and a legacy prefix field. -/
def prefsC10 : JObj :=
  [("Other", .str "keep"),
   ("BundleIdentifierPrefixMap", .obj [("com.zzz.", .str "org.zzz.")]),
   ("BundleIdentifierPrefix", .str "legacy.")]

/-- Witness for C10 at a concrete preference document. -/
theorem C10_remember_frame_witness :
    jget ( remember_bundle_prefix cfgAcme prefsC10).1 "Other" = jget prefsC10 "Other" ∧
    jget (get_prefix_map ( remember_bundle_prefix cfgAcme prefsC10).1) "com.zzz." =
      jget (get_prefix_map prefsC10) "com.zzz." ∧
    jget ( remember_bundle_prefix cfgAcme prefsC10).1 "BundleIdentifierPrefix" =
      jget prefsC10 "BundleIdentifierPrefix" :=
  C10_remember_frame cfgAcme prefsC10 "Other" "com.zzz." (by decide) (by decide)

/-- Witness for C9 at a concrete legacy-wrapped document. -/
theorem C9_io_bounds_witness :
    ensure_cfg_existing trivEnv [] dLegacy1 = .ok outLegacy ∧
    (outLegacy.trace.count Ev.readCfg = 1 ∧
     outLegacy.trace.count Ev.writeCfg ≤ 2 ∧
     outLegacy.trace.count Ev.loadPrefs ≤ 2 ∧
     outLegacy.trace.count Ev.savePrefs ≤ 1 ∧
     (∀ f : JObj, dLegacy1 = .obj f → outLegacy.trace.count Ev.writeCfg ≤ 1)) :=
  ⟨rfl, C9_io_bounds trivEnv [] dLegacy1 outLegacy rfl⟩

/-- A fresh project document sharing `cfgAcme`'s auto-prefix. -/
def freshAcme : JObj :=
  [("CompanyName", .str "AcMe"), ("ProductName", .str "Gadget")]

/-- C3: the remember step computes the auto-prefix from the company name
and the actual prefix (all dotted segments but the last) from the bundle
identifier only when it has at least 3 dotted segments (otherwise no
preference access at all); it is a pure no-op when the stored mapping for
the auto-prefix already equals the actual prefix, and otherwise persists
the updated mapping.  Concretely, after remembering auto-prefix
`com.acme.` ↦ `com.acme2.`, a fresh config with the same auto-prefix
receives bundle identifier `com.acme2.gadget`. -/
theorem C3_remember_and_propagation :
    (∀ cfg prefs : JObj, ∀ b : String,
       jget cfg "BundleIdentifier" = some (.str b) →
       ((splitStr '.' (pyStrip b)).filter (fun p => p ≠ "")).length < 3 →
       remember_bundle_prefix cfg prefs = (prefs, [])) ∧
    (∀ cfg prefs : JObj, ∀ actualP : String,
       extract_bundle_prefix (jgetD cfg "BundleIdentifier" .null) = some actualP →
       (jvalEqStr (jget (get_prefix_map prefs) ( auto_bundle_prefix cfg)) actualP = true →
          remember_bundle_prefix cfg prefs = (prefs, [Ev.loadPrefs])) ∧
       (jvalEqStr (jget (get_prefix_map prefs) ( auto_bundle_prefix cfg)) actualP = false →
          remember_bundle_prefix cfg prefs =
            (jset prefs "BundleIdentifierPrefixMap"
               (.obj (jset (get_prefix_map prefs) ( auto_bundle_prefix cfg) (.str actualP))),
             [Ev.loadPrefs, Ev.savePrefs]))) ∧
    ( remember_bundle_prefix cfgAcme []).1 =
      [("BundleIdentifierPrefixMap", .obj [("com.acme.", .str "com.acme2.")])] ∧
    (ensure_bundle_identifier trivEnv ( remember_bundle_prefix cfgAcme []).1
        freshAcme []).1 =
      freshAcme ++ [("BundleIdentifier", .str "com.acme2.gadget")] := by
  refine ⟨?_, ?_, rfl, rfl⟩
  · intro cfg prefs b hb hlen
    have hx : extract_bundle_prefix (jgetD cfg "BundleIdentifier" .null) = none := by
      unfold extract_bundle_prefix
      rw [show jgetD cfg "BundleIdentifier" .null = .str b by simp [jgetD, hb]]
      by_cases hbe : b = ""
      · simp [hbe, truthy]
      · rw [if_neg (by simp [truthy, hbe])]
        exact if_pos hlen
    unfold remember_bundle_prefix
    rw [hx]
  · intro cfg prefs actualP hx
    constructor
    · intro he
      unfold remember_bundle_prefix
      rw [hx]
      simp [he]
    · intro he
      unfold remember_bundle_prefix
      rw [hx]
      simp [he]

/-- Witness for C3's conditional parts at concrete inputs. -/
theorem C3_remember_and_propagation_witness :
    remember_bundle_prefix [("BundleIdentifier", .str "com.x")] prefsC10 =
      (prefsC10, []) ∧
    remember_bundle_prefix cfgAcme [] =
      ([("BundleIdentifierPrefixMap", .obj [("com.acme.", .str "com.acme2.")])],
       [Ev.loadPrefs, Ev.savePrefs]) :=
  ⟨C3_remember_and_propagation.1 [("BundleIdentifier", .str "com.x")] prefsC10
     "com.x" rfl (by decide),
   (C3_remember_and_propagation.2.1 cfgAcme [] "com.acme2." rfl).2 rfl⟩

/-- C4 (amended): on load, any nonempty list whose first element is an
object — regardless of the list's length — is normalized by unwrapping
that first element and immediately rewriting the file in object form;
an empty list, or a nonempty list whose first element is not an object,
is the fatal structural error. -/
theorem C4_legacy_list_amended :
    (∀ env : Env, ∀ prefs f : JObj, ∀ rest : List JVal, ∀ out : PassOut,
       (ensure_cfg_existing env prefs (.arr (.obj f :: rest)) = .ok out ↔
         run_backfill env prefs f true = .ok out)) ∧
    (∀ env : Env, ∀ prefs : JObj,
       ensure_cfg_existing env prefs (.arr []) =
         .error "Unexpected packaging.json structure.") ∧
    (∀ env : Env, ∀ prefs : JObj, ∀ v : JVal, ∀ rest : List JVal,
       (∀ g : JObj, v ≠ .obj g) →
       ensure_cfg_existing env prefs (.arr (v :: rest)) =
         .error "Unexpected packaging.json structure.") ∧
    (∀ env : Env, ∀ prefs f : JObj, ∀ rest : List JVal, ∀ out : PassOut,
       ensure_cfg_existing env prefs (.arr (.obj f :: rest)) = .ok out →
       Ev.writeCfg ∈ out.trace) := by
  refine ⟨fun env prefs f rest out => Iff.rfl, fun env prefs => rfl, ?_, ?_⟩
  · intro env prefs v rest hv
    rcases v with _ | b | n | s | ys | gs
    · rfl
    · rfl
    · rfl
    · rfl
    · rfl
    · exact absurd rfl (hv gs)
  · intro env prefs f rest out h
    obtain ⟨d2, u2, d3, u3, _, _, _, _, _, htr⟩ :=
      run_backfill_ok_elim env prefs f true out h
    rw [htr]
    simp

/-- Witness for C4's conditional parts at concrete inputs. -/
theorem C4_legacy_list_amended_witness :
    ensure_cfg_existing trivEnv [] (.arr [.num 3]) =
      .error "Unexpected packaging.json structure." ∧
    Ev.writeCfg ∈ outLegacy.trace :=
  ⟨C4_legacy_list_amended.2.2.1 trivEnv [] (.num 3) [] (fun _ h => JVal.noConfusion h),
   C4_legacy_list_amended.2.2.2 trivEnv [] [("CompanyName", .str "Acme")] [] outLegacy rfl⟩

/-- Counterexample to C4 as stated: a two-element legacy list whose first
element is an object is not a fatal structural error — the pass unwraps
the head and succeeds. -/
theorem C4_counterexample :
    (ensure_cfg_existing trivEnv []
      (.arr [.obj [("ProductName", .str "X")], .obj []])).isOk = true := rfl

theorem jget_append_ne (m : JObj) (k k' : String) (v : JVal) (h : k' ≠ k) :
    jget (m ++ [(k, v)]) k' = jget m k' := by
  induction m with
  | nil => simp [jget, Ne.symm h]
  | cons hd tl ih =>
      obtain ⟨k0, v0⟩ := hd
      by_cases hk : k0 = k' <;> simp [jget, hk, ih]

theorem jget_append_self (m : JObj) (k : String) (v : JVal) (h : jget m k = none) :
    jget (m ++ [(k, v)]) k = some v := by
  induction m with
  | nil => simp [jget]
  | cons hd tl ih =>
      obtain ⟨k0, v0⟩ := hd
      by_cases hk : k0 = k
      · simp [jget, hk] at h
      · simp [jget, hk] at h ⊢
        exact ih h

theorem jget_jsetdefault_ne (m : JObj) (k k' : String) (v : JVal) (h : k' ≠ k) :
    jget (jsetdefault m k v) k' = jget m k' := by
  unfold jsetdefault
  by_cases hm : jmem m k = true <;> simp [hm, jget_append_ne m k k' v h]

/-!  Claim-side notions for the metadata reader: which nodes carry a given
tag with nonempty stripped text, and the first/last such text. -/

/-- A node whose namespace-stripped tag satisfies `p` and whose stripped
text is nonempty (empty-text nodes are skipped by the reader). -/
def isTagText (p : String → Bool) (node : String × String) : Bool :=
  p (localName node.1) && pyStrip node.2 ≠ ""

/-- The stripped text of the first `p`-tagged nonempty node. -/
def firstTagText (p : String → Bool) : List (String × String) → Option String
  | [] => none
  | n :: rest => if isTagText p n then some (pyStrip n.2) else firstTagText p rest

/-- The stripped text of the last `p`-tagged nonempty node. -/
def lastTagText (p : String → Bool) : List (String × String) → Option String
  | [] => none
  | n :: rest =>
      match lastTagText p rest with
      | some t => some t
      | none => if isTagText p n then some (pyStrip n.2) else none

theorem step_company (meta : JObj) (node : String × String) :
    jget (read_csproj_step meta node) "CompanyName" =
      if isTagText (fun t => t = "Company") node then some (.str (pyStrip node.2))
      else jget meta "CompanyName" := by
  unfold read_csproj_step isTagText
  by_cases ht : pyStrip node.2 = ""
  · simp [ht]
  · by_cases h1 : localName node.1 = "Company"
    · simp [ht, h1, jget_jset_self]
    · by_cases h2 : localName node.1 = "ApplicationTitle" ∨ localName node.1 = "AssemblyName"
      · rcases h2 with h2 | h2 <;>
          simp [ht, h1, h2, jget_jsetdefault_ne _ _ _ _ (by decide : "CompanyName" ≠ "ProductName")]
      · push_neg at h2
        by_cases h3 : localName node.1 = "RootNamespace"
        · simp [ht, h1, h2.1, h2.2, h3,
            jget_jsetdefault_ne _ _ _ _ (by decide : "CompanyName" ≠ "RootNamespace")]
        · by_cases h4 : localName node.1 = "Version"
          · simp [ht, h1, h2.1, h2.2, h3, h4,
              jget_jset_ne _ _ _ _ (by decide : "CompanyName" ≠ "Version")]
          · simp [ht, h1, h2.1, h2.2, h3, h4]

theorem step_version (meta : JObj) (node : String × String) :
    jget (read_csproj_step meta node) "Version" =
      if isTagText (fun t => t = "Version") node then some (.str (pyStrip node.2))
      else jget meta "Version" := by
  unfold read_csproj_step isTagText
  by_cases ht : pyStrip node.2 = ""
  · simp [ht]
  · by_cases h1 : localName node.1 = "Company"
    · simp [ht, h1, jget_jset_ne _ _ _ _ (by decide : "Version" ≠ "CompanyName")]
    · by_cases h2 : localName node.1 = "ApplicationTitle" ∨ localName node.1 = "AssemblyName"
      · rcases h2 with h2 | h2 <;>
          simp [ht, h1, h2, show localName node.1 ≠ "Version" by rw [h2]; decide,
            jget_jsetdefault_ne _ _ _ _ (by decide : "Version" ≠ "ProductName")]
      · push_neg at h2
        by_cases h3 : localName node.1 = "RootNamespace"
        · simp [ht, h1, h2.1, h2.2, h3,
            jget_jsetdefault_ne _ _ _ _ (by decide : "Version" ≠ "RootNamespace")]
        · by_cases h4 : localName node.1 = "Version"
          · simp [ht, h1, h2.1, h2.2, h3, h4, jget_jset_self]
          · simp [ht, h1, h2.1, h2.2, h3, h4]

theorem step_rootns (meta : JObj) (node : String × String) :
    jget (read_csproj_step meta node) "RootNamespace" =
      if isTagText (fun t => t = "RootNamespace") node && !(jmem meta "RootNamespace")
      then some (.str (pyStrip node.2))
      else jget meta "RootNamespace" := by
  unfold read_csproj_step isTagText
  by_cases ht : pyStrip node.2 = ""
  · simp [ht]
  · by_cases h1 : localName node.1 = "Company"
    · simp [ht, h1, jget_jset_ne _ _ _ _ (by decide : "RootNamespace" ≠ "CompanyName")]
    · by_cases h2 : localName node.1 = "ApplicationTitle" ∨ localName node.1 = "AssemblyName"
      · rcases h2 with h2 | h2 <;>
          simp [ht, h1, h2, show localName node.1 ≠ "RootNamespace" by rw [h2]; decide,
            jget_jsetdefault_ne _ _ _ _ (by decide : "RootNamespace" ≠ "ProductName")]
      · push_neg at h2
        by_cases h3 : localName node.1 = "RootNamespace"
        · by_cases hm : jmem meta "RootNamespace" = true
          · unfold jsetdefault jmem at *
            simp [ht, h1, h2.1, h2.2, h3, hm]
          · unfold jsetdefault jmem at *
            simp only [Bool.not_eq_true] at hm
            rcases hj : jget meta "RootNamespace" with _ | w
            · simp [ht, h1, h2.1, h2.2, h3, hj, Option.isSome]
              exact jget_append_self meta _ _ hj
            · rw [hj] at hm
              simp [Option.isSome] at hm
        · by_cases h4 : localName node.1 = "Version"
          · simp [ht, h1, h2.1, h2.2, h3, h4,
              jget_jset_ne _ _ _ _ (by decide : "RootNamespace" ≠ "Version")]
          · simp [ht, h1, h2.1, h2.2, h3, h4]

theorem step_product (meta : JObj) (node : String × String) :
    jget (read_csproj_step meta node) "ProductName" =
      if isTagText (fun t => t = "ApplicationTitle" || t = "AssemblyName") node
          && !(jmem meta "ProductName")
      then some (.str (pyStrip node.2))
      else jget meta "ProductName" := by
  unfold read_csproj_step isTagText
  by_cases ht : pyStrip node.2 = ""
  · simp [ht]
  · by_cases h1 : localName node.1 = "Company"
    · simp [ht, h1, show ¬(localName node.1 = "ApplicationTitle" ∨ localName node.1 = "AssemblyName") by
        rw [h1]; decide,
        jget_jset_ne _ _ _ _ (by decide : "ProductName" ≠ "CompanyName")]
    · by_cases h2 : localName node.1 = "ApplicationTitle" ∨ localName node.1 = "AssemblyName"
      · by_cases hm : jmem meta "ProductName" = true
        · unfold jsetdefault jmem at *
          rcases h2 with h2 | h2 <;> simp [ht, h1, h2, hm]
        · unfold jsetdefault jmem at *
          simp only [Bool.not_eq_true] at hm
          rcases hj : jget meta "ProductName" with _ | w
          · rcases h2 with h2 | h2 <;>
              simp [ht, h1, h2, hj, Option.isSome] <;>
              exact jget_append_self meta _ _ hj
          · rw [hj] at hm
            simp [Option.isSome] at hm
      · push_neg at h2
        by_cases h3 : localName node.1 = "RootNamespace"
        · simp [ht, h1, h2.1, h2.2, h3,
            jget_jsetdefault_ne _ _ _ _ (by decide : "ProductName" ≠ "RootNamespace")]
        · by_cases h4 : localName node.1 = "Version"
          · simp [ht, h1, h2.1, h2.2, h3, h4,
              jget_jset_ne _ _ _ _ (by decide : "ProductName" ≠ "Version")]
          · simp [ht, h1, h2.1, h2.2, h3, h4]

theorem fold_company (nodes : List (String × String)) (meta : JObj) :
    jget (nodes.foldl read_csproj_step meta) "CompanyName" =
      match lastTagText (fun t => t = "Company") nodes with
      | some t => some (.str t)
      | none => jget meta "CompanyName" := by
  induction nodes generalizing meta with
  | nil => rfl
  | cons n rest ih =>
      simp only [List.foldl_cons]
      rw [ih (read_csproj_step meta n)]
      rcases h : lastTagText (fun t => t = "Company") rest with _ | t
      · simp only [lastTagText, h]
        rw [step_company]
        by_cases hn : isTagText (fun t => t = "Company") n = true <;> simp [hn]
      · simp only [lastTagText, h]

theorem fold_version (nodes : List (String × String)) (meta : JObj) :
    jget (nodes.foldl read_csproj_step meta) "Version" =
      match lastTagText (fun t => t = "Version") nodes with
      | some t => some (.str t)
      | none => jget meta "Version" := by
  induction nodes generalizing meta with
  | nil => rfl
  | cons n rest ih =>
      simp only [List.foldl_cons]
      rw [ih (read_csproj_step meta n)]
      rcases h : lastTagText (fun t => t = "Version") rest with _ | t
      · simp only [lastTagText, h]
        rw [step_version]
        by_cases hn : isTagText (fun t => t = "Version") n = true <;> simp [hn]
      · simp only [lastTagText, h]

theorem fold_product (nodes : List (String × String)) (meta : JObj) :
    jget (nodes.foldl read_csproj_step meta) "ProductName" =
      match jget meta "ProductName" with
      | some v => some v
      | none =>
          (firstTagText (fun t => t = "ApplicationTitle" || t = "AssemblyName") nodes).map
            JVal.str := by
  induction nodes generalizing meta with
  | nil => rcases h : jget meta "ProductName" with _ | v <;> simp [h, firstTagText]
  | cons n rest ih =>
      simp only [List.foldl_cons]
      rw [ih (read_csproj_step meta n)]
      rcases hm : jget meta "ProductName" with _ | v
      · by_cases hn : isTagText (fun t => t = "ApplicationTitle" || t = "AssemblyName") n = true
        · have hs : jget (read_csproj_step meta n) "ProductName" = some (.str (pyStrip n.2)) := by
            rw [step_product]
            simp [hn, jmem, hm]
          rw [hs]
          simp [firstTagText, hn]
        · have hs : jget (read_csproj_step meta n) "ProductName" = none := by
            rw [step_product]
            simp [hn, hm]
          rw [hs]
          simp [firstTagText, hn]
      · have hs : jget (read_csproj_step meta n) "ProductName" = some v := by
          rw [step_product]
          simp [jmem, hm]
        rw [hs]

theorem fold_rootns (nodes : List (String × String)) (meta : JObj) :
    jget (nodes.foldl read_csproj_step meta) "RootNamespace" =
      match jget meta "RootNamespace" with
      | some v => some v
      | none => (firstTagText (fun t => t = "RootNamespace") nodes).map JVal.str := by
  induction nodes generalizing meta with
  | nil => rcases h : jget meta "RootNamespace" with _ | v <;> simp [h, firstTagText]
  | cons n rest ih =>
      simp only [List.foldl_cons]
      rw [ih (read_csproj_step meta n)]
      rcases hm : jget meta "RootNamespace" with _ | v
      · by_cases hn : isTagText (fun t => t = "RootNamespace") n = true
        · have hs : jget (read_csproj_step meta n) "RootNamespace" = some (.str (pyStrip n.2)) := by
            rw [step_rootns]
            simp [hn, jmem, hm]
          rw [hs]
          simp [firstTagText, hn]
        · have hs : jget (read_csproj_step meta n) "RootNamespace" = none := by
            rw [step_rootns]
            simp [hn, hm]
          rw [hs]
          simp [firstTagText, hn]
      · have hs : jget (read_csproj_step meta n) "RootNamespace" = some v := by
          rw [step_rootns]
          simp [jmem, hm]
        rw [hs]

/-- C5 (amended): the metadata reader keeps the first occurrence for the
product name (`ApplicationTitle`/`AssemblyName`) and the root namespace,
but takes the last occurrence for `Version` AND for the company name —
`Company` is plain assignment in the source, not `setdefault`; the
product name falls back to the project file's stem. -/
theorem C5_metadata_precedence (stem : String) (nodes : List (String × String)) :
    jget (read_csproj_metadata stem nodes) "CompanyName" =
      (lastTagText (fun t => t = "Company") nodes).map JVal.str ∧
    jget (read_csproj_metadata stem nodes) "Version" =
      (lastTagText (fun t => t = "Version") nodes).map JVal.str ∧
    jget (read_csproj_metadata stem nodes) "RootNamespace" =
      (firstTagText (fun t => t = "RootNamespace") nodes).map JVal.str ∧
    jget (read_csproj_metadata stem nodes) "ProductName" =
      some (.str ((firstTagText
        (fun t => t = "ApplicationTitle" || t = "AssemblyName") nodes).getD stem)) := by
  unfold read_csproj_metadata
  by_cases hm : jmem (nodes.foldl read_csproj_step []) "ProductName" = true
  · rw [if_pos hm]
    refine ⟨?_, ?_, ?_, ?_⟩
    · rw [fold_company nodes []]
      rcases h : lastTagText (fun t => t = "Company") nodes with _ | t <;> simp [jget]
    · rw [fold_version nodes []]
      rcases h : lastTagText (fun t => t = "Version") nodes with _ | t <;> simp [jget]
    · rw [fold_rootns nodes []]
      simp [jget]
    · unfold jmem at hm
      have hf := fold_product nodes []
      simp only [jget] at hf
      rw [hf] at hm ⊢
      rcases h : firstTagText (fun t => t = "ApplicationTitle" || t = "AssemblyName") nodes
          with _ | t
      · rw [h] at hm
        simp at hm
      · simp
  · rw [if_neg hm]
    refine ⟨?_, ?_, ?_, ?_⟩
    · rw [jget_jset_ne _ _ _ _ (by decide : "CompanyName" ≠ "ProductName"),
        fold_company nodes []]
      rcases h : lastTagText (fun t => t = "Company") nodes with _ | t <;> simp [jget]
    · rw [jget_jset_ne _ _ _ _ (by decide : "Version" ≠ "ProductName"),
        fold_version nodes []]
      rcases h : lastTagText (fun t => t = "Version") nodes with _ | t <;> simp [jget]
    · rw [jget_jset_ne _ _ _ _ (by decide : "RootNamespace" ≠ "ProductName"),
        fold_rootns nodes []]
      simp [jget]
    · unfold jmem at hm
      have hf := fold_product nodes []
      simp only [jget] at hf
      rw [jget_jset_self]
      rcases h : firstTagText (fun t => t = "ApplicationTitle" || t = "AssemblyName") nodes
          with _ | t
      · simp
      · rw [hf, h] at hm
        simp at hm

/-- Counterexample to C5 as stated: with two `Company` tags the reader
keeps the LAST occurrence, not the first. -/
theorem C5_counterexample :
    jget (read_csproj_metadata "p" [("Company", "A"), ("Company", "B")]) "CompanyName" =
      some (.str "B") ∧
    ¬ jget (read_csproj_metadata "p" [("Company", "A"), ("Company", "B")]) "CompanyName" =
      some (.str "A") := by
  refine ⟨rfl, ?_⟩
  intro h
  have h2 : JVal.str "B" = JVal.str "A" := Option.some.inj h
  have h3 : "B" = "A" := by injection h2
  exact absurd h3 (by decide)

/-!  Order and set lemmas for the unresolved-token listing. -/

theorem lexLe_trans (a : List Char) : ∀ b c : List Char,
    lexLe a b = true → lexLe b c = true → lexLe a c = true := by
  induction a with
  | nil => intro b c _ _; rfl
  | cons x xs ih =>
      intro b c hab hbc
      rcases b with _ | ⟨y, ys⟩
      · simp [lexLe] at hab
      · rcases c with _ | ⟨z, zs⟩
        · simp [lexLe] at hbc
        · unfold lexLe at hab hbc ⊢
          by_cases hxy : x = y
          · subst hxy
            simp only [if_pos rfl] at hab
            by_cases hyz : x = z
            · subst hyz
              simp only [if_pos rfl] at hbc ⊢
              exact ih ys zs hab hbc
            · simp only [hyz, if_neg, if_false] at hbc ⊢
              exact hbc
          · simp only [hxy, if_false] at hab
            have hlt1 : x < y := of_decide_eq_true hab
            by_cases hyz : y = z
            · subst hyz
              simp only [hxy, if_false]
              exact hab
            · simp only [hyz, if_false] at hbc
              have hlt2 : y < z := of_decide_eq_true hbc
              have hlt : x < z := lt_trans hlt1 hlt2
              simp only [ne_of_lt hlt, if_false]
              exact decide_eq_true hlt

theorem lexLe_total (a : List Char) : ∀ b : List Char,
    lexLe a b = true ∨ lexLe b a = true := by
  induction a with
  | nil => intro b; exact Or.inl rfl
  | cons x xs ih =>
      intro b
      rcases b with _ | ⟨y, ys⟩
      · exact Or.inr rfl
      · unfold lexLe
        by_cases hxy : x = y
        · subst hxy
          simp only [if_pos rfl]
          exact ih ys
        · rcases lt_or_gt_of_ne hxy with hlt | hgt
          · exact Or.inl (by simp [hxy, decide_eq_true hlt])
          · exact Or.inr (by simp [Ne.symm hxy, decide_eq_true hgt])

theorem strLe_trans {a b c : String} (h1 : strLe a b = true)
    (h2 : strLe b c = true) : strLe a c = true :=
  lexLe_trans a.data b.data c.data h1 h2

theorem strLe_total (a b : String) : strLe a b = true ∨ strLe b a = true :=
  lexLe_total a.data b.data

theorem mem_insertSorted (x z : String) (l : List String) :
    z ∈ insertSorted x l ↔ z = x ∨ z ∈ l := by
  induction l with
  | nil => simp [insertSorted]
  | cons y ys ih =>
      unfold insertSorted
      by_cases hxy : strLe x y = true
      · rw [if_pos hxy]
        simp [List.mem_cons]
      · rw [if_neg hxy]
        simp only [List.mem_cons, ih]
        tauto

theorem mem_sortStrs (z : String) (l : List String) :
    z ∈ sortStrs l ↔ z ∈ l := by
  induction l with
  | nil => simp [sortStrs]
  | cons x xs ih =>
      show z ∈ insertSorted x (sortStrs xs) ↔ _
      rw [mem_insertSorted, ih]
      simp

theorem pairwise_insertSorted (x : String) (l : List String)
    (h : l.Pairwise (fun a b => strLe a b = true)) :
    (insertSorted x l).Pairwise (fun a b => strLe a b = true) := by
  induction l with
  | nil => simp [insertSorted]
  | cons y ys ih =>
      rcases List.pairwise_cons.mp h with ⟨hy, hys⟩
      unfold insertSorted
      by_cases hxy : strLe x y = true
      · simp only [hxy, if_true]
        refine List.pairwise_cons.mpr ⟨?_, h⟩
        intro z hz
        rcases List.mem_cons.mp hz with rfl | hz'
        · exact hxy
        · exact strLe_trans hxy (hy z hz')
      · simp only [hxy, if_false]
        refine List.pairwise_cons.mpr ⟨?_, ih hys⟩
        intro z hz
        rcases (mem_insertSorted x z ys).mp hz with hzx | hz'
        · subst hzx
          rcases strLe_total z y with ht | ht
          · exact absurd ht hxy
          · exact ht
        · exact hy z hz'

theorem pairwise_sortStrs (l : List String) :
    (sortStrs l).Pairwise (fun a b => strLe a b = true) := by
  induction l with
  | nil => simp [sortStrs]
  | cons x xs ih => exact pairwise_insertSorted x (sortStrs xs) ih

theorem nodup_insertSorted (x : String) (l : List String)
    (h : l.Nodup) (hx : x ∉ l) : (insertSorted x l).Nodup := by
  induction l with
  | nil => simp [insertSorted]
  | cons y ys ih =>
      rcases List.nodup_cons.mp h with ⟨hyys, hys⟩
      unfold insertSorted
      by_cases hxy : strLe x y = true
      · simp only [hxy, if_true]
        exact List.nodup_cons.mpr ⟨hx, h⟩
      · simp only [hxy, if_false]
        refine List.nodup_cons.mpr ⟨?_, ih hys (fun hm => hx (List.mem_cons_of_mem y hm))⟩
        intro hm
        rcases (mem_insertSorted x y ys).mp hm with rfl | hm'
        · exact hx (List.mem_cons_self y ys)
        · exact hyys hm'

theorem nodup_sortStrs (l : List String) (h : l.Nodup) : (sortStrs l).Nodup := by
  induction l with
  | nil => simp [sortStrs]
  | cons x xs ih =>
      rcases List.nodup_cons.mp h with ⟨hx, hxs⟩
      exact nodup_insertSorted x (sortStrs xs) (ih hxs)
        (fun hm => hx ((mem_sortStrs x xs).mp hm))

theorem mem_dedupStrs (z : String) (l : List String) :
    z ∈ dedupStrs l ↔ z ∈ l := by
  induction l with
  | nil => simp [dedupStrs]
  | cons x xs ih =>
      unfold dedupStrs
      by_cases hx : x ∈ xs
      · simp only [hx, if_true, ih, List.mem_cons]
        constructor
        · exact Or.inr
        · rintro (rfl | hz)
          · exact hx
          · exact hz
      · simp [hx, ih]

theorem nodup_dedupStrs (l : List String) : (dedupStrs l).Nodup := by
  induction l with
  | nil => simp [dedupStrs]
  | cons x xs ih =>
      unfold dedupStrs
      by_cases hx : x ∈ xs
      · simp [hx, ih]
      · simp only [hx, if_false]
        exact List.nodup_cons.mpr ⟨fun hm => hx ((mem_dedupStrs x xs).mp hm), ih⟩

/-- C6: template expansion substitutes every mapped token and fails if
and only if a `{{name}}`-shaped placeholder survives the substitution;
the single error message lists the unresolved names sorted (Python's
string order) and de-duplicated; and the two contract examples hold. -/
theorem C6_template_expansion :
    (∀ text : String, ∀ tokens : List (String × String),
       ((∃ e, replace_tokens text tokens = .error e) ↔
         findPlaceholders (substTokens text tokens) ≠ [])) ∧
    (∀ text : String, ∀ tokens : List (String × String),
       findPlaceholders (substTokens text tokens) ≠ [] →
       replace_tokens text tokens =
         .error ("Unreplaced tokens remain in Inno template: "
           ++ joinSep ", " (sortedDedup (findPlaceholders (substTokens text tokens)))
           ++ ".")) ∧
    (∀ l : List String, ∀ x : String, (x ∈ sortedDedup l ↔ x ∈ l)) ∧
    (∀ l : List String, (sortedDedup l).Nodup) ∧
    (∀ l : List String, (sortedDedup l).Pairwise (fun a b => strLe a b = true)) ∧
    replace_tokens "Name={{A}}, X={{B}}" [("A", "foo"), ("B", "bar")] =
      .ok "Name=foo, X=bar" ∧
    replace_tokens "Name={{A}}, X={{B}}" [("A", "foo")] =
      .error "Unreplaced tokens remain in Inno template: B." := by
  refine ⟨?_, ?_, ?_, ?_, ?_, rfl, rfl⟩
  · intro text tokens
    unfold replace_tokens
    by_cases hl : (findPlaceholders (substTokens text tokens)).isEmpty = true
    · simp only [hl, if_true]
      constructor
      · rintro ⟨e, he⟩
        exact Except.noConfusion he
      · intro hne
        exact absurd (List.isEmpty_iff.mp hl) hne
    · simp only [hl, if_false]
      constructor
      · intro _
        intro hne
        rw [hne] at hl
        exact hl rfl
      · intro _
        exact ⟨_, rfl⟩
  · intro text tokens hne
    unfold replace_tokens
    rw [if_neg (by simpa using hne)]
  · intro l x
    unfold sortedDedup
    rw [mem_sortStrs, mem_dedupStrs]
  · intro l
    exact nodup_sortStrs _ (nodup_dedupStrs l)
  · intro l
    exact pairwise_sortStrs _

/-- Witness for C6's conditional part at a concrete template. -/
theorem C6_template_expansion_witness :
    findPlaceholders (substTokens "{{Q}}" []) ≠ [] ∧
    replace_tokens "{{Q}}" [] =
      .error ("Unreplaced tokens remain in Inno template: "
        ++ joinSep ", " (sortedDedup (findPlaceholders (substTokens "{{Q}}" []))) ++ ".") :=
  ⟨by decide, C6_template_expansion.2.1 "{{Q}}" [] (by decide)⟩

/-!  Decomposition lemmas for the remote-URL parsing. -/

theorem strData_append (a b : String) : (a ++ b).data = a.data ++ b.data := rfl

theorem strMk_data (s : String) : String.mk s.data = s := rfl

theorem isPrefixOf_append_self (p t : List Char) : p.isPrefixOf (p ++ t) = true := by
  induction p with
  | nil => cases t <;> rfl
  | cons c cs ih => simp [List.isPrefixOf, ih]

theorem splitChar_no_sep (sep : Char) (a : List Char) (h : ∀ c ∈ a, c ≠ sep) :
    splitChar sep a = [a] := by
  induction a with
  | nil => rfl
  | cons x xs ih =>
      have hx : x ≠ sep := h x (List.mem_cons_self x xs)
      have ih' := ih (fun c hc => h c (List.mem_cons_of_mem x hc))
      simp [splitChar, ih', hx]

theorem splitChar_append (sep : Char) (a rest : List Char)
    (h : ∀ c ∈ a, c ≠ sep) :
    splitChar sep (a ++ sep :: rest) = a :: splitChar sep rest := by
  induction a with
  | nil =>
      simp only [List.nil_append, splitChar]
      rcases hs : splitChar sep rest with _ | ⟨hh, tt⟩
      · exact absurd hs (splitChar_ne_nil sep rest)
      · simp
  | cons x xs ih =>
      have hx : x ≠ sep := h x (List.mem_cons_self x xs)
      have ih' := ih (fun c hc => h c (List.mem_cons_of_mem x hc))
      simp only [List.cons_append, splitChar, List.append_eq]
      rw [ih']
      simp [hx]

theorem takeWhile_ne_append (a t : List Char) (h : ∀ c ∈ a, c ≠ ':') :
    (a ++ ':' :: t).takeWhile (fun c => c ≠ ':') = a := by
  induction a with
  | nil => simp [List.takeWhile]
  | cons x xs ih =>
      have hx : x ≠ ':' := h x (List.mem_cons_self x xs)
      have ih' := ih (fun c hc => h c (List.mem_cons_of_mem x hc))
      rw [List.cons_append, List.takeWhile_cons]
      simp only [ne_eq, decide_not] at ih'
      simp [hx, ih']

theorem dropWhile_ne_append (a t : List Char) (h : ∀ c ∈ a, c ≠ ':') :
    (a ++ ':' :: t).dropWhile (fun c => c ≠ ':') = ':' :: t := by
  induction a with
  | nil => simp [List.dropWhile]
  | cons x xs ih =>
      have hx : x ≠ ':' := h x (List.mem_cons_self x xs)
      have ih' := ih (fun c hc => h c (List.mem_cons_of_mem x hc))
      rw [List.cons_append, List.dropWhile_cons]
      simp only [ne_eq, decide_not] at ih'
      simp [hx, ih']

theorem splitStr_three (h o r : String)
    (hh : ∀ c ∈ h.data, c ≠ '/') (ho : ∀ c ∈ o.data, c ≠ '/')
    (hr : ∀ c ∈ r.data, c ≠ '/') :
    splitStr '/' (String.mk (h.data ++ '/' :: (o.data ++ '/' :: r.data))) = [h, o, r] := by
  show (splitChar '/' (h.data ++ '/' :: (o.data ++ '/' :: r.data))).map String.mk = _
  rw [splitChar_append _ _ _ hh, splitChar_append _ _ _ ho, splitChar_no_sep _ _ hr]
  simp [strMk_data]

theorem httpsMatch_pos (h o r : String) (hhne : h ≠ "") (hone : o ≠ "") (hrne : r ≠ "")
    (hh : ∀ c ∈ h.data, c ≠ '/') (ho : ∀ c ∈ o.data, c ≠ '/')
    (hr : ∀ c ∈ r.data, c ≠ '/') :
    httpsMatch ("https://" ++ h ++ "/" ++ o ++ "/" ++ r) = some (h, o) := by
  have hslash : ("/" : String).data = ['/'] := rfl
  have hdata : ("https://" ++ h ++ "/" ++ o ++ "/" ++ r).data
      = "https://".data ++ (h.data ++ '/' :: (o.data ++ '/' :: r.data)) := by
    simp [strData_append, List.append_assoc, hslash]
  have hsw : strStartsWith ("https://" ++ h ++ "/" ++ o ++ "/" ++ r) "https://" = true := by
    unfold strStartsWith
    rw [hdata]
    exact isPrefixOf_append_self _ _
  have hdrop : dropPrefixStr ("https://" ++ h ++ "/" ++ o ++ "/" ++ r) "https://"
      = String.mk (h.data ++ '/' :: (o.data ++ '/' :: r.data)) := by
    unfold dropPrefixStr
    rw [hdata, List.drop_left]
  unfold httpsMatch
  simp only [hsw, if_true, hdrop, splitStr_three h o r hh ho hr]
  simp [hhne, hone, hrne]

theorem httpMatch_pos (h o r : String) (hhne : h ≠ "") (hone : o ≠ "") (hrne : r ≠ "")
    (hh : ∀ c ∈ h.data, c ≠ '/') (ho : ∀ c ∈ o.data, c ≠ '/')
    (hr : ∀ c ∈ r.data, c ≠ '/') :
    httpsMatch ("http://" ++ h ++ "/" ++ o ++ "/" ++ r) = some (h, o) := by
  have hslash : ("/" : String).data = ['/'] := rfl
  have hdata : ("http://" ++ h ++ "/" ++ o ++ "/" ++ r).data
      = "http://".data ++ (h.data ++ '/' :: (o.data ++ '/' :: r.data)) := by
    simp [strData_append, List.append_assoc, hslash]
  have hsw1 : strStartsWith ("http://" ++ h ++ "/" ++ o ++ "/" ++ r) "https://" = false := by
    unfold strStartsWith
    rw [hdata]
    rfl
  have hsw2 : strStartsWith ("http://" ++ h ++ "/" ++ o ++ "/" ++ r) "http://" = true := by
    unfold strStartsWith
    rw [hdata]
    exact isPrefixOf_append_self _ _
  have hdrop : dropPrefixStr ("http://" ++ h ++ "/" ++ o ++ "/" ++ r) "http://"
      = String.mk (h.data ++ '/' :: (o.data ++ '/' :: r.data)) := by
    unfold dropPrefixStr
    rw [hdata, List.drop_left]
  unfold httpsMatch
  simp only [hsw1, Bool.false_eq_true, if_false, hsw2, if_true, hdrop,
    splitStr_three h o r hh ho hr]
  simp [hhne, hone, hrne]

theorem sshMatch_pos (h o r : String) (hhne : h ≠ "") (hone : o ≠ "") (hrne : r ≠ "")
    (hh : ∀ c ∈ h.data, c ≠ ':') (ho : ∀ c ∈ o.data, c ≠ '/')
    (hr : ∀ c ∈ r.data, c ≠ '/') :
    sshMatch ("git@" ++ h ++ ":" ++ o ++ "/" ++ r) = some (h, o) := by
  have hcolon : (":" : String).data = [':'] := rfl
  have hslash : ("/" : String).data = ['/'] := rfl
  have hdata : ("git@" ++ h ++ ":" ++ o ++ "/" ++ r).data
      = "git@".data ++ (h.data ++ ':' :: (o.data ++ '/' :: r.data)) := by
    simp [strData_append, List.append_assoc, hcolon, hslash]
  have hsw : strStartsWith ("git@" ++ h ++ ":" ++ o ++ "/" ++ r) "git@" = true := by
    unfold strStartsWith
    rw [hdata]
    exact isPrefixOf_append_self _ _
  have hdrop : dropPrefixStr ("git@" ++ h ++ ":" ++ o ++ "/" ++ r) "git@"
      = String.mk (h.data ++ ':' :: (o.data ++ '/' :: r.data)) := by
    unfold dropPrefixStr
    rw [hdata, List.drop_left]
  unfold sshMatch
  simp only [hsw, if_true, hdrop]
  have htake : (h.data ++ ':' :: (o.data ++ '/' :: r.data)).takeWhile (fun c => c ≠ ':')
      = h.data := takeWhile_ne_append _ _ hh
  have hdropw : (h.data ++ ':' :: (o.data ++ '/' :: r.data)).dropWhile (fun c => c ≠ ':')
      = ':' :: (o.data ++ '/' :: r.data) := dropWhile_ne_append _ _ hh
  simp only [htake, hdropw, strMk_data]
  rw [splitChar_append _ _ _ ho, splitChar_no_sep _ _ hr]
  simp [hhne, hone, hrne, strMk_data]

theorem httpsMatch_git_none (h o r : String) :
    httpsMatch ("git@" ++ h ++ ":" ++ o ++ "/" ++ r) = none := by
  have hcolon : (":" : String).data = [':'] := rfl
  have hslash : ("/" : String).data = ['/'] := rfl
  have hdata : ("git@" ++ h ++ ":" ++ o ++ "/" ++ r).data
      = "git@".data ++ (h.data ++ ':' :: (o.data ++ '/' :: r.data)) := by
    simp [strData_append, List.append_assoc, hcolon, hslash]
  have hsw1 : strStartsWith ("git@" ++ h ++ ":" ++ o ++ "/" ++ r) "https://" = false := by
    unfold strStartsWith
    rw [hdata]
    rfl
  have hsw2 : strStartsWith ("git@" ++ h ++ ":" ++ o ++ "/" ++ r) "http://" = false := by
    unfold strStartsWith
    rw [hdata]
    rfl
  unfold httpsMatch
  simp [hsw1, hsw2]

theorem cat6_ne (p a b c d e : String) (hp : p ≠ "") :
    p ++ a ++ b ++ c ++ d ++ e ≠ "" :=
  str_append_ne_empty_left _ _ (str_append_ne_empty_left _ _
    (str_append_ne_empty_left _ _ (str_append_ne_empty_left _ _
      (str_append_ne_empty_left _ _ hp))))

/-- C7: with `PublisherUrl` unset, the URL derived from the `origin`
remote is `https://host/owner` for both recognized shapes — an
HTTPS/HTTP URL `scheme://host/owner/repo` and an SSH URL
`git@host:owner/repo`, each with `repo` free to carry the optional
`.git` suffix — while any remote on which neither pattern matches
derives the empty string, and an empty derivation leaves the config
untouched (no field set, no error, no log entry). -/
theorem C7_publisher_url :
    (∀ h o r : String, h ≠ "" → o ≠ "" → r ≠ "" →
       (∀ c ∈ h.data, c ≠ '/') → (∀ c ∈ o.data, c ≠ '/') → (∀ c ∈ r.data, c ≠ '/') →
       pyStrip ("https://" ++ h ++ "/" ++ o ++ "/" ++ r) =
         "https://" ++ h ++ "/" ++ o ++ "/" ++ r →
       publisher_url_from_remote ("https://" ++ h ++ "/" ++ o ++ "/" ++ r) =
         "https://" ++ h ++ "/" ++ o) ∧
    (∀ h o r : String, h ≠ "" → o ≠ "" → r ≠ "" →
       (∀ c ∈ h.data, c ≠ '/') → (∀ c ∈ o.data, c ≠ '/') → (∀ c ∈ r.data, c ≠ '/') →
       pyStrip ("http://" ++ h ++ "/" ++ o ++ "/" ++ r) =
         "http://" ++ h ++ "/" ++ o ++ "/" ++ r →
       publisher_url_from_remote ("http://" ++ h ++ "/" ++ o ++ "/" ++ r) =
         "https://" ++ h ++ "/" ++ o) ∧
    (∀ h o r : String, h ≠ "" → o ≠ "" → r ≠ "" →
       (∀ c ∈ h.data, c ≠ ':') → (∀ c ∈ o.data, c ≠ '/') → (∀ c ∈ r.data, c ≠ '/') →
       pyStrip ("git@" ++ h ++ ":" ++ o ++ "/" ++ r) =
         "git@" ++ h ++ ":" ++ o ++ "/" ++ r →
       publisher_url_from_remote ("git@" ++ h ++ ":" ++ o ++ "/" ++ r) =
         "https://" ++ h ++ "/" ++ o) ∧
    (∀ remote : String,
       httpsMatch (pyStrip remote) = none → sshMatch (pyStrip remote) = none →
       publisher_url_from_remote remote = "") ∧
    (∀ env : Env, ∀ cfg : JObj, ∀ u : List String,
       publisher_url_from_remote env.remoteUrl = "" →
       ensure_publisher_url env cfg u = (cfg, u)) := by
  refine ⟨?_, ?_, ?_, ?_, ?_⟩
  · intro h o r hhne hone hrne hh ho hr hstrip
    simp only [publisher_url_from_remote,
      if_neg (cat6_ne "https://" h "/" o "/" r (by decide))]
    simp only [hstrip, httpsMatch_pos h o r hhne hone hrne hh ho hr]
  · intro h o r hhne hone hrne hh ho hr hstrip
    simp only [publisher_url_from_remote,
      if_neg (cat6_ne "http://" h "/" o "/" r (by decide))]
    simp only [hstrip, httpMatch_pos h o r hhne hone hrne hh ho hr]
  · intro h o r hhne hone hrne hh ho hr hstrip
    simp only [publisher_url_from_remote,
      if_neg (cat6_ne "git@" h ":" o "/" r (by decide))]
    simp only [hstrip, httpsMatch_git_none h o r,
      sshMatch_pos h o r hhne hone hrne hh ho hr]
  · intro remote hhm hsm
    unfold publisher_url_from_remote
    by_cases hre : remote = ""
    · simp [hre]
    · simp only [hre, if_false, hhm, hsm]
  · intro env cfg u hu
    exact pub_skip_empty env cfg u hu

/-- Witness for C7 at concrete remotes of each shape. -/
theorem C7_publisher_url_witness :
    publisher_url_from_remote "https://github.com/dean/proj.git" = "https://github.com/dean" ∧
    publisher_url_from_remote "git@gitlab.com:dean/proj.git" = "https://gitlab.com/dean" ∧
    publisher_url_from_remote "https://github.com/onlyowner" = "" ∧
    ensure_publisher_url trivEnv dQuiet [] = (dQuiet, []) :=
  ⟨C7_publisher_url.1 "github.com" "dean" "proj.git" (by decide) (by decide) (by decide)
     (by decide) (by decide) (by decide) (by decide),
   C7_publisher_url.2.2.1 "gitlab.com" "dean" "proj.git" (by decide) (by decide) (by decide)
     (by decide) (by decide) (by decide) (by decide),
   C7_publisher_url.2.2.2.1 "https://github.com/onlyowner" (by decide) (by decide),
   C7_publisher_url.2.2.2.2 trivEnv dQuiet [] rfl⟩

/-- C8: the version validator accepts exactly major.minor strings — it
accepts "1.2" and rejects "1", "1.2.3", "", "v1.2" — and after every
reconciliation pass that completes without error the config's `Version`
is a string matching the major.minor pattern. -/
theorem C8_version_invariant :
    validate_version "1.2" = .ok "1.2" ∧
    (∃ e, validate_version "1" = .error e) ∧
    (∃ e, validate_version "1.2.3" = .error e) ∧
    (∃ e, validate_version "" = .error e) ∧
    (∃ e, validate_version "v1.2" = .error e) ∧
    (∀ env : Env, ∀ prefs : JObj, ∀ data0 : JVal, ∀ out : PassOut,
       ensure_cfg_existing env prefs data0 = .ok out →
       ∃ w, jget out.cfg "Version" = some (.str w) ∧ isVerFormat w = true) := by
  refine ⟨rfl, ⟨_, rfl⟩, ⟨_, rfl⟩, ⟨_, rfl⟩, ⟨_, rfl⟩, ?_⟩
  intro env prefs data0 out h
  obtain ⟨d, l, hrb⟩ := ensure_cfg_ok_elim env prefs data0 out h
  obtain ⟨_, _, hver, _⟩ := run_backfill_settled env prefs d l out hrb
  exact hver

/-- Witness for C8's pass invariant at a concrete document. -/
theorem C8_version_invariant_witness :
    ensure_cfg_existing trivEnv [] (.obj dQuiet) = .ok outQuiet ∧
    ∃ w, jget outQuiet.cfg "Version" = some (.str w) ∧ isVerFormat w = true :=
  ⟨rfl, C8_version_invariant.2.2.2.2.2 trivEnv [] (.obj dQuiet) outQuiet rfl⟩

/-- A document missing only `Version`, with a present but partial `Mac`
section. -/
def dC1 : JObj :=
  [("BundleIdentifier", .str "com.a.b"),
   ("Mac", .obj [("IconIcns", .str "i.icns")]),
   ("PublisherUrl", .str "u")]

/-- The outcome of reconciling `dC1` against the empty environment. -/
def outC1 : PassOut :=
  { cfg := [("BundleIdentifier", .str "com.a.b"),
            ("Mac", .obj [("IconIcns", .str "i.icns"),
                          ("RuntimeIdentifiers", defaultRids),
                          ("InfoPlist", .str "Installer/templates/Info.plist")]),
            ("PublisherUrl", .str "u"),
            ("Version", .str "0.1")],
    updates := ["Normalised Mac packaging settings", "Added default Version"],
    prefs := [("BundleIdentifierPrefixMap", .obj [("com.example.", .str "com.a.")])],
    trace := [.readCfg, .loadPrefs, .savePrefs, .writeCfg] }

/-- Counterexample to C1 as stated: `dC1` is missing exactly one field
among the four (`Version`), yet reconciliation also rewrites the present
`Mac` field (backfilling its missing sub-fields), so a present field does
not stay unchanged. -/
theorem C1_counterexample :
    ensure_cfg_existing trivEnv [] (.obj dC1) = .ok outC1 ∧
    truthyAt dC1 "BundleIdentifier" = true ∧
    jmem dC1 "Mac" = true ∧
    truthyAt dC1 "Version" = false ∧
    truthyAt dC1 "PublisherUrl" = true ∧
    ¬ jget outC1.cfg "Mac" = jget dC1 "Mac" := by
  refine ⟨rfl, by decide, by decide, by decide, by decide, ?_⟩
  intro h
  have h2 : JVal.obj [("IconIcns", JVal.str "i.icns"),
      ("RuntimeIdentifiers", defaultRids),
      ("InfoPlist", JVal.str "Installer/templates/Info.plist")]
      = JVal.obj [("IconIcns", JVal.str "i.icns")] := Option.some.inj h
  have h3 : [("IconIcns", JVal.str "i.icns"),
      ("RuntimeIdentifiers", defaultRids),
      ("InfoPlist", JVal.str "Installer/templates/Info.plist")]
      = [("IconIcns", JVal.str "i.icns")] := by injection h2
  simp at h3

/-- Shorthand for the canonical `Mac` field shapes of a settled document. -/
def macCanonP (cfg : JObj) : Prop :=
  jget cfg "Mac" = some .null ∨
    ∃ m, jget cfg "Mac" = some (.obj m) ∧ truthyAt m "RuntimeIdentifiers" = true ∧
      truthyAt m "InfoPlist" = true

/-- Shorthand for a canonical `Version` field. -/
def verCanonP (cfg : JObj) : Prop :=
  ∃ s, jget cfg "Version" = some (.str s) ∧ isVerFormat s = true

theorem backfill_case_bid (env : Env) (prefs cfg : JObj) (out : PassOut)
    (h : ensure_cfg_existing env prefs (.obj cfg) = .ok out)
    (hb : truthyAt cfg "BundleIdentifier" = false)
    (hmac : macCanonP cfg) (hver : verCanonP cfg)
    (hpu : truthyAt cfg "PublisherUrl" = true) :
    truthyAt out.cfg "BundleIdentifier" = true ∧
    (∀ k, jmem cfg k = true → k ≠ "BundleIdentifier" → jget out.cfg k = jget cfg k) := by
  have hrb : run_backfill env prefs cfg false = .ok out := h
  obtain ⟨d2, u2, d3, u3, hm, hv, hcfg, hupd, hpfs, htr⟩ :=
    run_backfill_ok_elim env prefs cfg false out hrb
  obtain ⟨bid, hbne, heq⟩ := ebi_fill env prefs cfg [] hb
  have hd1 : (ensure_bundle_identifier env prefs cfg []).1 =
      jset cfg "BundleIdentifier" (.str bid) := by rw [heq]
  have hmacskip : ensure_mac_section env (ensure_bundle_identifier env prefs cfg []).1
      (ensure_bundle_identifier env prefs cfg []).2.1 =
      .ok ((ensure_bundle_identifier env prefs cfg []).1,
           (ensure_bundle_identifier env prefs cfg []).2.1) := by
    rw [hd1]
    have hjm : jget (jset cfg "BundleIdentifier" (.str bid)) "Mac" = jget cfg "Mac" :=
      jget_jset_ne _ _ _ _ (by decide)
    rcases hmac with hn | ⟨m, hmo, hR, hI⟩
    · exact mac_null_skip env _ _ (by rw [hjm]; exact hn)
    · exact mac_good_skip env _ _ m (by rw [hjm]; exact hmo) hR hI
  have h12 := hm.symm.trans hmacskip
  simp only [Except.ok.injEq, Prod.mk.injEq] at h12
  obtain ⟨hd2, hu2⟩ := h12
  obtain ⟨s, hs, hsf⟩ := hver
  have hjv : jget d2 "Version" = some (.str s) := by
    rw [hd2, hd1, jget_jset_ne _ _ _ _ (by decide)]
    exact hs
  have h23 := hv.symm.trans (ver_skip env d2 u2 s hjv hsf)
  simp only [Except.ok.injEq, Prod.mk.injEq] at h23
  obtain ⟨hd3, hu3⟩ := h23
  have hjp : truthyAt d3 "PublisherUrl" = true := by
    unfold truthyAt jgetD at hpu ⊢
    rw [hd3, hd2, hd1, jget_jset_ne _ _ _ _ (by decide)]
    exact hpu
  have hout : out.cfg = jset cfg "BundleIdentifier" (.str bid) := by
    rw [hcfg, pub_skip_truthy env d3 u3 hjp, hd3, hd2, hd1]
  constructor
  · rw [hout, truthyAt_jset_self]
    simp [truthy, hbne]
  · intro k _ hkne
    rw [hout, jget_jset_ne _ _ _ _ hkne]

theorem backfill_case_mac (env : Env) (prefs cfg : JObj) (out : PassOut)
    (h : ensure_cfg_existing env prefs (.obj cfg) = .ok out)
    (hb : truthyAt cfg "BundleIdentifier" = true)
    (hmac : jget cfg "Mac" = none) (hproj : projOk cfg = true)
    (hver : verCanonP cfg) (hpu : truthyAt cfg "PublisherUrl" = true) :
    jmem out.cfg "Mac" = true ∧
    (∀ k, jmem cfg k = true → k ≠ "Mac" → jget out.cfg k = jget cfg k) := by
  have hrb : run_backfill env prefs cfg false = .ok out := h
  obtain ⟨d2, u2, d3, u3, hm, hv, hcfg, hupd, hpfs, htr⟩ :=
    run_backfill_ok_elim env prefs cfg false out hrb
  have hd1 : (ensure_bundle_identifier env prefs cfg []).1 = cfg := by
    rw [ebi_skip env prefs cfg [] hb]
  have hmf : ensure_mac_section env (ensure_bundle_identifier env prefs cfg []).1
      (ensure_bundle_identifier env prefs cfg []).2.1 =
      .ok (jset (mac_defaults env cfg).1 "Mac" (.obj (mac_defaults env cfg).2),
           (ensure_bundle_identifier env prefs cfg []).2.1
             ++ ["Added default Mac packaging section"]) := by
    rw [hd1]
    exact mac_absent_fill env cfg _ hmac
  have h12 := hm.symm.trans hmf
  simp only [Except.ok.injEq, Prod.mk.injEq] at h12
  obtain ⟨hd2, hu2⟩ := h12
  obtain ⟨s, hs, hsf⟩ := hver
  have hjv : jget d2 "Version" = some (.str s) := by
    rw [hd2, jget_jset_ne _ _ _ _ (by decide),
      mac_defaults_fst_frame env cfg _ (by decide)]
    exact hs
  have h23 := hv.symm.trans (ver_skip env d2 u2 s hjv hsf)
  simp only [Except.ok.injEq, Prod.mk.injEq] at h23
  obtain ⟨hd3, hu3⟩ := h23
  have hjp : truthyAt d3 "PublisherUrl" = true := by
    unfold truthyAt jgetD at hpu ⊢
    rw [hd3, hd2, jget_jset_ne _ _ _ _ (by decide),
      mac_defaults_fst_frame env cfg _ (by decide)]
    exact hpu
  have hout : out.cfg = jset (mac_defaults env cfg).1 "Mac"
      (.obj (mac_defaults env cfg).2) := by
    rw [hcfg, pub_skip_truthy env d3 u3 hjp, hd3, hd2]
  constructor
  · rw [jmem, hout, jget_jset_self]
    rfl
  · intro k hk hkne
    rw [hout, jget_jset_ne _ _ _ _ hkne,
      mac_defaults_fst_presFrame env cfg k hproj hk]

theorem backfill_case_version (env : Env) (prefs cfg : JObj) (out : PassOut)
    (h : ensure_cfg_existing env prefs (.obj cfg) = .ok out)
    (hb : truthyAt cfg "BundleIdentifier" = true)
    (hmac : macCanonP cfg) (_hvf : truthyAt cfg "Version" = false)
    (hpu : truthyAt cfg "PublisherUrl" = true) :
    truthyAt out.cfg "Version" = true ∧
    (∀ k, jmem cfg k = true → k ≠ "Version" → jget out.cfg k = jget cfg k) := by
  have hrb : run_backfill env prefs cfg false = .ok out := h
  obtain ⟨d2, u2, d3, u3, hm, hv, hcfg, hupd, hpfs, htr⟩ :=
    run_backfill_ok_elim env prefs cfg false out hrb
  have hd1 : (ensure_bundle_identifier env prefs cfg []).1 = cfg := by
    rw [ebi_skip env prefs cfg [] hb]
  have hmacskip : ensure_mac_section env (ensure_bundle_identifier env prefs cfg []).1
      (ensure_bundle_identifier env prefs cfg []).2.1 =
      .ok ((ensure_bundle_identifier env prefs cfg []).1,
           (ensure_bundle_identifier env prefs cfg []).2.1) := by
    rw [hd1]
    rcases hmac with hn | ⟨m, hmo, hR, hI⟩
    · exact mac_null_skip env _ _ hn
    · exact mac_good_skip env _ _ m hmo hR hI
  have h12 := hm.symm.trans hmacskip
  simp only [Except.ok.injEq, Prod.mk.injEq] at h12
  obtain ⟨hd2, hu2⟩ := h12
  obtain ⟨w, hd3, hwf⟩ := ensure_version_ok_main env d2 u2 d3 u3 hv
  have hjp : truthyAt d3 "PublisherUrl" = true := by
    unfold truthyAt jgetD at hpu ⊢
    rw [hd3, jget_jset_ne _ _ _ _ (by decide), hd2, hd1]
    exact hpu
  have hout : out.cfg = jset cfg "Version" (.str w) := by
    rw [hcfg, pub_skip_truthy env d3 u3 hjp, hd3, hd2, hd1]
  constructor
  · rw [hout, truthyAt_jset_self]
    simp [truthy, isVerFormat_ne_empty w hwf]
  · intro k _ hkne
    rw [hout, jget_jset_ne _ _ _ _ hkne]

theorem backfill_case_publisher (env : Env) (prefs cfg : JObj) (out : PassOut)
    (h : ensure_cfg_existing env prefs (.obj cfg) = .ok out)
    (hb : truthyAt cfg "BundleIdentifier" = true)
    (hmac : macCanonP cfg) (hver : verCanonP cfg)
    (hpuf : truthyAt cfg "PublisherUrl" = false) :
    (publisher_url_from_remote env.remoteUrl ≠ "" →
       truthyAt out.cfg "PublisherUrl" = true) ∧
    (publisher_url_from_remote env.remoteUrl = "" →
       jget out.cfg "PublisherUrl" = jget cfg "PublisherUrl") ∧
    (∀ k, jmem cfg k = true → k ≠ "PublisherUrl" → jget out.cfg k = jget cfg k) := by
  have hrb : run_backfill env prefs cfg false = .ok out := h
  obtain ⟨d2, u2, d3, u3, hm, hv, hcfg, hupd, hpfs, htr⟩ :=
    run_backfill_ok_elim env prefs cfg false out hrb
  have hd1 : (ensure_bundle_identifier env prefs cfg []).1 = cfg := by
    rw [ebi_skip env prefs cfg [] hb]
  have hmacskip : ensure_mac_section env (ensure_bundle_identifier env prefs cfg []).1
      (ensure_bundle_identifier env prefs cfg []).2.1 =
      .ok ((ensure_bundle_identifier env prefs cfg []).1,
           (ensure_bundle_identifier env prefs cfg []).2.1) := by
    rw [hd1]
    rcases hmac with hn | ⟨m, hmo, hR, hI⟩
    · exact mac_null_skip env _ _ hn
    · exact mac_good_skip env _ _ m hmo hR hI
  have h12 := hm.symm.trans hmacskip
  simp only [Except.ok.injEq, Prod.mk.injEq] at h12
  obtain ⟨hd2, hu2⟩ := h12
  obtain ⟨s, hs, hsf⟩ := hver
  have hjv : jget d2 "Version" = some (.str s) := by
    rw [hd2, hd1]
    exact hs
  have h23 := hv.symm.trans (ver_skip env d2 u2 s hjv hsf)
  simp only [Except.ok.injEq, Prod.mk.injEq] at h23
  obtain ⟨hd3, hu3⟩ := h23
  have hd3c : d3 = cfg := by rw [hd3, hd2, hd1]
  have hpuf3 : truthyAt d3 "PublisherUrl" = false := by rw [hd3c]; exact hpuf
  by_cases hu : publisher_url_from_remote env.remoteUrl = ""
  · have hout : out.cfg = cfg := by
      rw [hcfg, pub_skip_empty env d3 u3 hu, hd3c]
    refine ⟨fun hne => absurd hu hne, fun _ => by rw [hout], fun k _ _ => by rw [hout]⟩
  · have hout : out.cfg = jset cfg "PublisherUrl"
        (.str (publisher_url_from_remote env.remoteUrl)) := by
      rw [hcfg, pub_fill env d3 u3 hpuf3 hu, hd3c]
    refine ⟨fun _ => ?_, fun he => absurd he hu, fun k _ hkne => ?_⟩
    · rw [hout, truthyAt_jset_self]
      simp [truthy, hu]
    · rw [hout, jget_jset_ne _ _ _ _ hkne]

theorem backfill_mac_null_pres (env : Env) (prefs cfg : JObj) (out : PassOut)
    (hn : jget cfg "Mac" = some .null)
    (h : ensure_cfg_existing env prefs (.obj cfg) = .ok out) :
    jget out.cfg "Mac" = some .null := by
  have hrb : run_backfill env prefs cfg false = .ok out := h
  obtain ⟨d2, u2, d3, u3, hm, hv, hcfg, hupd, hpfs, htr⟩ :=
    run_backfill_ok_elim env prefs cfg false out hrb
  have hd1m : jget (ensure_bundle_identifier env prefs cfg []).1 "Mac" = some .null := by
    by_cases hb : truthyAt cfg "BundleIdentifier" = true
    · rw [ebi_skip env prefs cfg [] hb]
      exact hn
    · obtain ⟨bid, _, heq⟩ := ebi_fill env prefs cfg [] (by simpa using hb)
      rw [heq]
      show jget (jset cfg "BundleIdentifier" (.str bid)) "Mac" = some .null
      rw [jget_jset_ne _ _ _ _ (by decide)]
      exact hn
  have h12 := hm.symm.trans (mac_null_skip env _ _ hd1m)
  simp only [Except.ok.injEq, Prod.mk.injEq] at h12
  obtain ⟨hd2, hu2⟩ := h12
  obtain ⟨w, hd3, _⟩ := ensure_version_ok_main env d2 u2 d3 u3 hv
  rw [hcfg, pub_frame env d3 u3 _ (by decide), hd3,
    jget_jset_ne _ _ _ _ (by decide), hd2, hd1m]

/-- C1 (amended): for an existing object document with exactly one of
the four fields missing — where the present fields are canonical
(`Version` a major.minor string, `Mac` null or a mapping already
carrying truthy `RuntimeIdentifiers` and `InfoPlist`, `Project` absent
or a nonempty string) — a successful reconciliation pass fills the
missing field (for `PublisherUrl` only when the origin remote parses,
otherwise the field stays as it was) and leaves every other field that
was present in the document unchanged; and a `Mac` key explicitly
present as null always stays null. -/
theorem C1_backfill_frame :
    (∀ env : Env, ∀ prefs cfg : JObj, ∀ out : PassOut,
       ensure_cfg_existing env prefs (.obj cfg) = .ok out →
       truthyAt cfg "BundleIdentifier" = false →
       macCanonP cfg → verCanonP cfg → truthyAt cfg "PublisherUrl" = true →
       truthyAt out.cfg "BundleIdentifier" = true ∧
       (∀ k, jmem cfg k = true → k ≠ "BundleIdentifier" →
          jget out.cfg k = jget cfg k)) ∧
    (∀ env : Env, ∀ prefs cfg : JObj, ∀ out : PassOut,
       ensure_cfg_existing env prefs (.obj cfg) = .ok out →
       truthyAt cfg "BundleIdentifier" = true →
       jget cfg "Mac" = none → projOk cfg = true →
       verCanonP cfg → truthyAt cfg "PublisherUrl" = true →
       jmem out.cfg "Mac" = true ∧
       (∀ k, jmem cfg k = true → k ≠ "Mac" → jget out.cfg k = jget cfg k)) ∧
    (∀ env : Env, ∀ prefs cfg : JObj, ∀ out : PassOut,
       ensure_cfg_existing env prefs (.obj cfg) = .ok out →
       truthyAt cfg "BundleIdentifier" = true →
       macCanonP cfg → truthyAt cfg "Version" = false →
       truthyAt cfg "PublisherUrl" = true →
       truthyAt out.cfg "Version" = true ∧
       (∀ k, jmem cfg k = true → k ≠ "Version" → jget out.cfg k = jget cfg k)) ∧
    (∀ env : Env, ∀ prefs cfg : JObj, ∀ out : PassOut,
       ensure_cfg_existing env prefs (.obj cfg) = .ok out →
       truthyAt cfg "BundleIdentifier" = true →
       macCanonP cfg → verCanonP cfg → truthyAt cfg "PublisherUrl" = false →
       (publisher_url_from_remote env.remoteUrl ≠ "" →
          truthyAt out.cfg "PublisherUrl" = true) ∧
       (publisher_url_from_remote env.remoteUrl = "" →
          jget out.cfg "PublisherUrl" = jget cfg "PublisherUrl") ∧
       (∀ k, jmem cfg k = true → k ≠ "PublisherUrl" →
          jget out.cfg k = jget cfg k)) ∧
    (∀ env : Env, ∀ prefs cfg : JObj, ∀ out : PassOut,
       jget cfg "Mac" = some .null →
       ensure_cfg_existing env prefs (.obj cfg) = .ok out →
       jget out.cfg "Mac" = some .null) :=
  ⟨fun env prefs cfg out h hb hm hv hp => backfill_case_bid env prefs cfg out h hb hm hv hp,
   fun env prefs cfg out h hb hm hpr hv hp =>
     backfill_case_mac env prefs cfg out h hb hm hpr hv hp,
   fun env prefs cfg out h hb hm hvf hp =>
     backfill_case_version env prefs cfg out h hb hm hvf hp,
   fun env prefs cfg out h hb hm hv hpf =>
     backfill_case_publisher env prefs cfg out h hb hm hv hpf,
   fun env prefs cfg out hn h => backfill_mac_null_pres env prefs cfg out hn h⟩

/-- A document missing only `Version`, with canonical present fields. -/
def dVer : JObj :=
  [("BundleIdentifier", .str "com.a.b"), ("Mac", .null), ("PublisherUrl", .str "u")]

/-- The outcome of reconciling `dVer` against the empty environment. -/
def outVer : PassOut :=
  { cfg := [("BundleIdentifier", .str "com.a.b"), ("Mac", .null),
            ("PublisherUrl", .str "u"), ("Version", .str "0.1")],
    updates := ["Added default Version"],
    prefs := [("BundleIdentifierPrefixMap", .obj [("com.example.", .str "com.a.")])],
    trace := [.readCfg, .loadPrefs, .savePrefs, .writeCfg] }

/-- Witness for C1's missing-`Version` case at a concrete document. -/
theorem C1_backfill_frame_witness :
    ensure_cfg_existing trivEnv [] (.obj dVer) = .ok outVer ∧
    (truthyAt outVer.cfg "Version" = true ∧
     (∀ k, jmem dVer k = true → k ≠ "Version" →
        jget outVer.cfg k = jget dVer k)) :=
  ⟨rfl, C1_backfill_frame.2.2.1 trivEnv [] dVer outVer rfl (by decide)
     (Or.inl rfl) (by decide) (by decide)⟩
